import Mathlib

/-!
Shallow embedding of the SolMemTradingBot event-pipeline core, translated from
the Python sources:

* `src/webhook/idempotency.py`  (deduplication LRU store)
* `src/webhook/parser.py`       (transaction classifier)
* `src/models/events.py`        (domain events)
* `src/signals/models.py`       (Signal, SignalOutcome, PnL computation)
* `src/signals/storage.py`      (signal store: upsert by id, ordered queries)
* `src/signals/generator.py`    (signal generator with signaled-token set)
* `src/signals/tracker.py`      (outcome tracker state machine)

Conventions of the embedding: Python `Decimal` and `float` values are modelled
as exact rationals (`ℚ`); `datetime` values as integer Unix seconds (`ℤ`);
`uuid` generation as a monotone counter, so Signal ids are `Nat`.  The SQLite
table is modelled as a list of signals with upsert-by-id semantics; the SQL
`ORDER BY signal_time` queries are modelled by a stable insertion sort on the
`signal_time` field, matching chronological ordering of ISO-8601 text.
Dictionaries of the Helius payload are modelled as structures where a missing
key holds the `.get(...)` default used by the source.
-/

/-! ## Deduplication store (`src/webhook/idempotency.py`, class `IdempotencyStore`)

The Python class keeps an `OrderedDict`; we model it as an association list in
recency order: the head is the least-recently-touched entry, the last element
is the most-recently-touched one.  `move_to_end` becomes erase-then-append. -/

structure IdempotencyStore (T : Type) where
  max_size : Nat
  store : List (String × T)
  deriving Repr

/-- Default capacity of `IdempotencyStore.__init__` (`max_size: int = 10000`). -/
def IdempotencyStore.defaultMaxSize : Nat := 10000

/-- A freshly constructed store: empty contents. -/
def IdempotencyStore.emptyStore (T : Type) (maxSize : Nat) : IdempotencyStore T :=
  { max_size := maxSize, store := [] }

/-- `contains`: checks membership and refreshes recency on a hit
(`move_to_end`).  Returns the boolean result together with the new state. -/
def IdempotencyStore.contains {T : Type} (s : IdempotencyStore T) (key : String) :
    Bool × IdempotencyStore T :=
  match s.store.lookup key with
  | some v =>
      (true, { s with store := (s.store.eraseP (fun p => p.1 == key)) ++ [(key, v)] })
  | none => (false, s)

/-- `add`: on an existing key, refresh recency and keep the stored value
(the new value is discarded, as in the source which returns before writing);
on a new key, append and then pop from the front while over capacity.  The
Python `while len > max_size: popitem(last=False)` loop is exactly a
`List.drop` of the length excess from the front. -/
def IdempotencyStore.add {T : Type} (s : IdempotencyStore T) (key : String) (value : T) :
    IdempotencyStore T :=
  match s.store.lookup key with
  | some v => { s with store := (s.store.eraseP (fun p => p.1 == key)) ++ [(key, v)] }
  | none =>
      let st := s.store ++ [(key, value)]
      { s with store := st.drop (st.length - s.max_size) }

/-- `get`: dictionary lookup, no recency refresh. -/
def IdempotencyStore.get {T : Type} (s : IdempotencyStore T) (key : String) : Option T :=
  s.store.lookup key

/-- `__len__`. -/
def IdempotencyStore.size {T : Type} (s : IdempotencyStore T) : Nat :=
  s.store.length

/-- One client-visible operation on the store. -/
inductive CacheOp (T : Type) where
  | containsOp (key : String)
  | addOp (key : String) (value : T)

/-- Apply one operation (dropping the boolean result of `contains`). -/
def IdempotencyStore.applyOp {T : Type} (s : IdempotencyStore T) : CacheOp T → IdempotencyStore T
  | CacheOp.containsOp k => (s.contains k).2
  | CacheOp.addOp k v => s.add k v

/-- Run a sequence of operations left to right. -/
def IdempotencyStore.runOps {T : Type} (s : IdempotencyStore T) :
    List (CacheOp T) → IdempotencyStore T
  | [] => s
  | op :: ops => (s.applyOp op).runOps ops


/-! ## Domain events (`src/models/events.py`)

`BaseEvent.timestamp` defaults to the wall clock (`_utc_now`); the parser
overwrites it with the transaction timestamp when one is present.  We pass the
wall clock explicitly as `now : ℤ`. -/

structure TokenCreatedEvent where
  tx_signature : String
  timestamp : Int
  slot : Option Int
  token_address : String
  creator_address : String
  token_name : Option String
  token_symbol : Option String
  initial_liquidity_sol : ℚ
  deriving DecidableEq

structure CurveProgressEvent where
  tx_signature : String
  timestamp : Int
  slot : Option Int
  token_address : String
  curve_progress_pct : ℚ
  liquidity_sol : ℚ
  market_cap_sol : Option ℚ
  token_price_sol : Option ℚ
  token_amount : Option ℚ
  deriving DecidableEq

structure MigrationEvent where
  tx_signature : String
  timestamp : Int
  slot : Option Int
  token_address : String
  raydium_pool_address : Option String
  final_liquidity_sol : ℚ
  deriving DecidableEq

/-! ## Signal model (`src/signals/models.py`) -/

inductive SignalStatus where
  | pending
  | migrated
  | failed
  | expired
  deriving DecidableEq

/-- Boolean form of `status == SignalStatus.PENDING`. -/
def SignalStatus.isPending : SignalStatus → Bool
  | SignalStatus.pending => true
  | _ => false

structure SignalOutcome where
  migrated : Bool
  migration_time : Option Int
  price_at_migration : Option ℚ
  simulated_entry_sol : Option ℚ
  simulated_exit_sol : Option ℚ
  simulated_pnl_pct : Option ℚ
  simulated_pnl_sol : Option ℚ
  deriving DecidableEq

/-- The default `SignalOutcome()`: everything unset. -/
def SignalOutcome.initial : SignalOutcome :=
  { migrated := false
    migration_time := none
    price_at_migration := none
    simulated_entry_sol := none
    simulated_exit_sol := none
    simulated_pnl_pct := none
    simulated_pnl_sol := none }

/-- `Signal`: ids are uuid strings in the source; only freshness and equality
of ids matter, so they are modelled as naturals drawn from a counter. -/
structure Signal where
  id : Nat
  token_address : String
  token_name : Option String
  token_symbol : Option String
  creator_address : Option String
  trigger_tx_signature : String
  signal_time : Int
  entry_curve_progress_pct : ℚ
  entry_liquidity_sol : ℚ
  entry_market_cap_sol : Option ℚ
  entry_price_sol : Option ℚ
  dev_holds_pct : Option ℚ
  simulated_buy_sol : ℚ
  status : SignalStatus
  outcome : SignalOutcome
  created_at : Int
  updated_at : Int
  deriving DecidableEq

/-- `Signal.calculate_simulated_pnl` (`src/signals/models.py`).  Returns the
updated signal; `now` stands for `_utc_now()`.  The unused
`pre_migration_exit_pct` parameter of the source is omitted. -/
def Signal.calculate_simulated_pnl (s : Signal) (exit_price_sol : ℚ) (now : Int) : Signal :=
  match s.entry_price_sol with
  | none => s
  | some entry =>
    if entry = 0 then s
    else
      let tokens_bought := s.simulated_buy_sol / entry
      let exit_value := tokens_bought * exit_price_sol
      let o1 := { s.outcome with
        simulated_entry_sol := some s.simulated_buy_sol
        simulated_exit_sol := some exit_value
        simulated_pnl_sol := some (exit_value - s.simulated_buy_sol) }
      let o2 :=
        if 0 < s.simulated_buy_sol then
          { o1 with
            simulated_pnl_pct :=
              some ((exit_value - s.simulated_buy_sol) / s.simulated_buy_sol * 100) }
        else o1
      { s with outcome := o2, updated_at := now }

/-! ## Transaction classifier (`src/webhook/parser.py`)

The loosely-typed Helius payload dictionaries are modelled as structures; a
missing key holds the `.get(...)` default the source supplies.  `float` and
`Decimal` arithmetic is modelled exactly over `ℚ`; lamport amounts are `ℤ`. -/

def PUMP_TOKEN_SUFFIX : String := "pump"

def PUMP_FUN_SOURCE : String := "PUMP_FUN"

/-- Suffix test over the character data, Python `str.endswith`. -/
def strEndsWith (s suf : String) : Bool := suf.data.isSuffixOf s.data

/-- Uppercase over the character data, Python `str.upper` on ASCII tags. -/
def strUpper (s : String) : String := String.mk (s.data.map Char.toUpper)

structure TokenTransfer where
  mint : String
  tokenAmount : ℚ
  deriving DecidableEq

structure NativeTransfer where
  amount : Int
  deriving DecidableEq

structure TokenBalanceChange where
  mint : String
  rawTokenAmount : Int
  decimals : Nat
  deriving DecidableEq

structure AccountData where
  nativeBalanceChange : Int
  tokenBalanceChanges : List TokenBalanceChange
  deriving DecidableEq

structure RawTx where
  signature : String
  source : String
  txType : String
  timestamp : Option Int
  slot : Option Int
  feePayer : String
  tokenTransfers : List TokenTransfer
  nativeTransfers : List NativeTransfer
  accountData : List AccountData
  deriving DecidableEq

inductive EventType where
  | token_created
  | curve_progress
  | migration
  | unknown
  deriving DecidableEq

inductive ParsedEvent where
  | tokenCreated (e : TokenCreatedEvent)
  | curveProgress (e : CurveProgressEvent)
  | migration (e : MigrationEvent)
  deriving DecidableEq

/-- `EventParser._detect_event_type`. -/
def detect_event_type (tx : RawTx) : EventType :=
  let t := strUpper tx.txType
  if t = ("CREATE") then EventType.token_created
  else if t = ("SWAP") then EventType.curve_progress
  else if t = ("MIGRATE") ∨ t = ("MIGRATION") then EventType.migration
  else EventType.unknown

/-- Timestamp handling of `_build_event`: a present, nonzero (truthy) raw
timestamp replaces the default wall-clock event time. -/
def parsedTimestamp (tx : RawTx) (now : Int) : Int :=
  match tx.timestamp with
  | some t => if t ≠ 0 then t else now
  | none => now

/-- First transfer whose mint carries the pump suffix (loop with `break`). -/
def findPumpTransfer (l : List TokenTransfer) : Option TokenTransfer :=
  l.find? (fun t => strEndsWith t.mint PUMP_TOKEN_SUFFIX)

/-- Scan of `accountData[*].tokenBalanceChanges`: the source breaks out of the
inner loop only, so a later account overwrites an earlier match; the fold
keeps the last account that has a matching change (its first such change). -/
def findPumpInAccounts (accs : List AccountData) : Option TokenBalanceChange :=
  accs.foldl
    (fun acc a =>
      match a.tokenBalanceChanges.find? (fun t => strEndsWith t.mint PUMP_TOKEN_SUFFIX) with
      | some t => some t
      | none => acc)
    none

/-- Token amount of a balance change: `abs(int(tokenAmount)) / 10 ** decimals`. -/
def tbcAmount (t : TokenBalanceChange) : ℚ :=
  (t.rawTokenAmount.natAbs : ℚ) / (10 : ℚ) ^ t.decimals

/-- `_build_token_created`. -/
def build_token_created (tx : RawTx) (now : Int) : Option TokenCreatedEvent :=
  let found :=
    match findPumpTransfer tx.tokenTransfers with
    | some t => some t.mint
    | none =>
      match findPumpInAccounts tx.accountData with
      | some t => some t.mint
      | none => none
  match found with
  | none => none
  | some addr =>
    let initial_liquidity :=
      tx.nativeTransfers.foldl
        (fun acc t => if 0 < t.amount then acc + (t.amount : ℚ) / 1000000000 else acc) 0
    some
      { tx_signature := tx.signature
        timestamp := parsedTimestamp tx now
        slot := tx.slot
        token_address := addr
        creator_address := tx.feePayer
        token_name := none
        token_symbol := none
        initial_liquidity_sol := initial_liquidity }

/-- The `sol_amounts` list of `_build_curve_progress`: absolute amounts of the
native transfers; when that list is empty, absolute nonzero native balance
changes of `accountData`. -/
def solAmounts (tx : RawTx) : List Int :=
  match tx.nativeTransfers with
  | [] =>
    (tx.accountData.filter (fun a => a.nativeBalanceChange != 0)).map
      (fun a => |a.nativeBalanceChange|)
  | t :: ts => (t :: ts).map (fun tr => |tr.amount|)

/-- `main_sol_amount = max(sol_amounts) / 1e9 if sol_amounts else 0.0`. -/
def mainSolAmount (tx : RawTx) : ℚ :=
  match solAmounts tx with
  | [] => 0
  | x :: xs => ((xs.foldl max x : Int) : ℚ) / 1000000000

/-- `total_sol = sum(abs(x) for x in sol_amounts) / 1e9 / 2`. -/
def totalSolAmount (tx : RawTx) : ℚ :=
  ((((solAmounts tx).map (fun x => |x|)).sum : Int) : ℚ) / 1000000000 / 2

/-- Subject-token resolution of `_build_curve_progress`: the first matching
transfer wins, else the account-data scan; paired with the traded amount. -/
def findCurveToken (tx : RawTx) : Option (String × ℚ) :=
  match findPumpTransfer tx.tokenTransfers with
  | some t => some (t.mint, |t.tokenAmount|)
  | none =>
    match findPumpInAccounts tx.accountData with
    | some t => some (t.mint, tbcAmount t)
    | none => none

/-- `_build_curve_progress`. -/
def build_curve_progress (tx : RawTx) (now : Int) : Option CurveProgressEvent :=
  match findCurveToken tx with
  | none => none
  | some (addr, token_amount) =>
    let main_sol := mainSolAmount tx
    let price? := if 0 < token_amount ∧ 0 < main_sol then some (main_sol / token_amount) else none
    some
      { tx_signature := tx.signature
        timestamp := parsedTimestamp tx now
        slot := tx.slot
        token_address := addr
        curve_progress_pct := 0
        liquidity_sol := totalSolAmount tx
        market_cap_sol := price?.map (fun p => p * 1000000000)
        token_price_sol := price?
        token_amount := some token_amount }

/-- `_build_migration`. -/
def build_migration (tx : RawTx) (now : Int) : Option MigrationEvent :=
  match findPumpTransfer tx.tokenTransfers with
  | none => none
  | some t =>
    let final_liquidity :=
      tx.nativeTransfers.foldl (fun acc tr => acc + ((|tr.amount| : Int) : ℚ) / 1000000000) 0
    some
      { tx_signature := tx.signature
        timestamp := parsedTimestamp tx now
        slot := tx.slot
        token_address := t.mint
        raydium_pool_address := none
        final_liquidity_sol := final_liquidity }

/-- `EventParser.parse_transaction`.  Total by construction: the `try/except`
of the source maps any internal failure to `None`; the embedding returns
`none` on every non-classifiable input. -/
def parse_transaction (tx : RawTx) (now : Int) : Option ParsedEvent :=
  if tx.signature = "" then none
  else if tx.source ≠ PUMP_FUN_SOURCE then none
  else
    match detect_event_type tx with
    | EventType.token_created => (build_token_created tx now).map ParsedEvent.tokenCreated
    | EventType.curve_progress => (build_curve_progress tx now).map ParsedEvent.curveProgress
    | EventType.migration => (build_migration tx now).map ParsedEvent.migration
    | EventType.unknown => none

/-- A transaction has a resolvable subject token when some mint with the pump
suffix occurs in `tokenTransfers` or in the account balance changes. -/
def hasPumpToken (tx : RawTx) : Bool :=
  tx.tokenTransfers.any (fun t => strEndsWith t.mint PUMP_TOKEN_SUFFIX) ||
  tx.accountData.any
    (fun a => a.tokenBalanceChanges.any (fun t => strEndsWith t.mint PUMP_TOKEN_SUFFIX))

/-! ## Signal store (`src/signals/storage.py`)

The SQLite table keyed by `id` is a list of signals; `save` is
`INSERT OR REPLACE` (upsert by id).  `ORDER BY signal_time DESC/ASC` is a
stable insertion sort on `signal_time`. -/

/-- `SignalStorage.save`: upsert by primary key `id`. -/
def saveSignal (storage : List Signal) (sig : Signal) : List Signal :=
  if storage.any (fun s => s.id == sig.id) then
    storage.map (fun s => if s.id = sig.id then sig else s)
  else storage ++ [sig]

/-- Stable insert for ascending `signal_time` order (equal keys keep order). -/
def insertAscByTime (s : Signal) : List Signal → List Signal
  | [] => [s]
  | x :: xs =>
    if s.signal_time < x.signal_time then s :: x :: xs else x :: insertAscByTime s xs

def sortByTimeAsc (l : List Signal) : List Signal :=
  l.foldl (fun acc s => insertAscByTime s acc) []

/-- Stable insert for descending `signal_time` order. -/
def insertDescByTime (s : Signal) : List Signal → List Signal
  | [] => [s]
  | x :: xs =>
    if x.signal_time < s.signal_time then s :: x :: xs else x :: insertDescByTime s xs

def sortByTimeDesc (l : List Signal) : List Signal :=
  l.foldl (fun acc s => insertDescByTime s acc) []

/-- `SignalStorage.get_by_token`: all signals of a token, newest first. -/
def get_by_token (storage : List Signal) (token : String) : List Signal :=
  sortByTimeDesc (storage.filter (fun s => s.token_address == token))

/-- `SignalStorage.get_pending`: pending signals, oldest first, limited. -/
def get_pending (storage : List Signal) (limit : Nat) : List Signal :=
  (sortByTimeAsc (storage.filter (fun s => s.status.isPending))).take limit

/-! ## Signal generator (`src/signals/generator.py`)

State: the in-memory signaled-token set, the storage, and the uuid source
(a counter).  The numeric components of rejection-reason strings are not
modelled; only which branch rejects matters here. -/

structure FilterThresholds where
  min_liquidity_sol : ℚ
  max_dev_holds_pct : ℚ
  min_curve_progress_pct : ℚ
  max_curve_progress_pct : ℚ
  deriving DecidableEq

structure GenState where
  signaled : List String
  storage : List Signal
  nextId : Nat
  deriving DecidableEq

/-- `SignalGenerator._check_filters`: first failing check short-circuits. -/
def check_filters (f : FilterThresholds) (e : CurveProgressEvent) : Option String :=
  if e.liquidity_sol < f.min_liquidity_sol then some ("liquidity_too_low")
  else if e.curve_progress_pct < f.min_curve_progress_pct then some ("curve_progress_too_low")
  else if f.max_curve_progress_pct < e.curve_progress_pct then some ("curve_progress_too_high")
  else none

/-- Python truthiness for an optional Decimal: `None` and `0` are falsy. -/
def decTruthy : Option ℚ → Bool
  | some v => v != 0
  | none => false

/-- Keep an optional number only when truthy (`x if x else None`). -/
def truthyOpt : Option ℚ → Option ℚ
  | some v => if v = 0 then none else some v
  | none => none

/-- `SignalGenerator._estimate_price`, market-cap fallback branch. -/
def estimate_price_fallback (e : CurveProgressEvent) : Option ℚ :=
  match e.market_cap_sol with
  | some mc => if 0 < mc then some (mc / 1000000000) else none
  | none => none

/-- `SignalGenerator._estimate_price`: prefer the direct swap price, else
derive from market cap over the fixed 1e9 total supply, else unset. -/
def estimate_price (e : CurveProgressEvent) : Option ℚ :=
  match e.token_price_sol with
  | some p => if 0 < p then some p else estimate_price_fallback e
  | none => estimate_price_fallback e

/-- `SignalGenerator.evaluate_curve_progress`. -/
def evaluate_curve_progress (f : FilterThresholds) (buy : ℚ) (st : GenState) (now : Int)
    (e : CurveProgressEvent) : GenState × Option Signal :=
  if st.signaled.contains e.token_address then (st, none)
  else
    match check_filters f e with
    | some _ => (st, none)
    | none =>
      let sig : Signal :=
        { id := st.nextId
          token_address := e.token_address
          token_name := none
          token_symbol := none
          creator_address := none
          trigger_tx_signature := e.tx_signature
          signal_time := e.timestamp
          entry_curve_progress_pct := e.curve_progress_pct
          entry_liquidity_sol := e.liquidity_sol
          entry_market_cap_sol := truthyOpt e.market_cap_sol
          entry_price_sol := estimate_price e
          dev_holds_pct := none
          simulated_buy_sol := buy
          status := SignalStatus.pending
          outcome := SignalOutcome.initial
          created_at := now
          updated_at := now }
      ({ signaled := e.token_address :: st.signaled
         storage := saveSignal st.storage sig
         nextId := st.nextId + 1 },
       some sig)

/-- `SignalGenerator.evaluate_token_created`. -/
def evaluate_token_created (f : FilterThresholds) (buy : ℚ) (st : GenState) (now : Int)
    (e : TokenCreatedEvent) : GenState × Option Signal :=
  if st.signaled.contains e.token_address then (st, none)
  else if e.initial_liquidity_sol < f.min_liquidity_sol then (st, none)
  else
    let sig : Signal :=
      { id := st.nextId
        token_address := e.token_address
        token_name := e.token_name
        token_symbol := e.token_symbol
        creator_address := some e.creator_address
        trigger_tx_signature := e.tx_signature
        signal_time := e.timestamp
        entry_curve_progress_pct := 0
        entry_liquidity_sol := e.initial_liquidity_sol
        entry_market_cap_sol := none
        entry_price_sol := none
        dev_holds_pct := none
        simulated_buy_sol := buy
        status := SignalStatus.pending
        outcome := SignalOutcome.initial
        created_at := now
        updated_at := now }
    ({ signaled := e.token_address :: st.signaled
       storage := saveSignal st.storage sig
       nextId := st.nextId + 1 },
     some sig)

/-- `SignalGenerator.clear_signaled_tokens`. -/
def clear_signaled_tokens (st : GenState) : GenState :=
  { st with signaled := [] }

/-- One qualifying event offered to the generator, with its wall-clock time. -/
inductive GenEvent where
  | curve (now : Int) (e : CurveProgressEvent)
  | created (now : Int) (e : TokenCreatedEvent)

def GenEvent.token : GenEvent → String
  | GenEvent.curve _ e => e.token_address
  | GenEvent.created _ e => e.token_address

def genStep (f : FilterThresholds) (buy : ℚ) (st : GenState) :
    GenEvent → GenState × Option Signal
  | GenEvent.curve now e => evaluate_curve_progress f buy st now e
  | GenEvent.created now e => evaluate_token_created f buy st now e

/-- Run a sequence of evaluations, collecting every created signal. -/
def runGen (f : FilterThresholds) (buy : ℚ) : GenState → List GenEvent → GenState × List Signal
  | st, [] => (st, [])
  | st, ev :: evs =>
    let r := genStep f buy st ev
    let rest := runGen f buy r.1 evs
    (rest.1, r.2.toList ++ rest.2)

/-! ## Outcome tracker (`src/signals/tracker.py`) -/

/-- `OutcomeTracker._estimate_migration_price`:
`final_liquidity / 1e9` when the final liquidity is truthy and positive. -/
def estimate_migration_price (e : MigrationEvent) : Option ℚ :=
  if 0 < e.final_liquidity_sol then some (e.final_liquidity_sol / 1000000000) else none

/-- `OutcomeTracker._estimate_price_from_curve`:
`market_cap / 1e9` when the market cap is truthy and positive. -/
def estimate_price_from_curve (e : CurveProgressEvent) : Option ℚ :=
  match e.market_cap_sol with
  | some mc => if 0 < mc then some (mc / 1000000000) else none
  | none => none

/-- The per-signal update of `handle_migration`: set the terminal state and
the migration outcome fields, then attempt the PnL computation when the entry
price is truthy and an exit price estimate exists. -/
def migrateSignal (now : Int) (e : MigrationEvent) (sig0 : Signal) : Signal :=
  let sig1 := { sig0 with
    status := SignalStatus.migrated
    outcome := { sig0.outcome with
      migrated := true
      migration_time := some e.timestamp
      price_at_migration := some e.final_liquidity_sol }
    updated_at := now }
  if decTruthy sig1.entry_price_sol then
    match estimate_migration_price e with
    | some ep => sig1.calculate_simulated_pnl ep now
    | none => sig1
  else sig1

/-- `OutcomeTracker.handle_migration`: the head of the pending sublist of the
newest-first token query is updated and saved. -/
def handle_migration (storage : List Signal) (now : Int) (e : MigrationEvent) :
    List Signal × Option Signal :=
  match (get_by_token storage e.token_address).filter (fun s => s.status.isPending) with
  | [] => (storage, none)
  | sig0 :: _ =>
    (saveSignal storage (migrateSignal now e sig0), some (migrateSignal now e sig0))

/-- Loop body of `handle_curve_update`: update one pending signal when both
the current price and the entry price are truthy. -/
def curveUpdateStep (now : Int) :
    Option ℚ → (List Signal × List Signal) → Signal → List Signal × List Signal
  | some cp, acc, s =>
    if (cp != 0) && decTruthy s.entry_price_sol then
      let s2 := { s.calculate_simulated_pnl cp now with updated_at := now }
      (saveSignal acc.1 s2, acc.2 ++ [s2])
    else acc
  | none, acc, _ => acc

/-- `OutcomeTracker.handle_curve_update`. -/
def handle_curve_update (storage : List Signal) (now : Int) (e : CurveProgressEvent) :
    List Signal × List Signal :=
  let pending := (get_by_token storage e.token_address).filter (fun s => s.status.isPending)
  pending.foldl (curveUpdateStep now (estimate_price_from_curve e)) (storage, [])

/-- Loop body of `expire_old_signals`: expire one signal when it is older
than the cutoff. -/
def expireStep (cutoff : Int) (now : Int) (acc : List Signal × Nat) (s : Signal) :
    List Signal × Nat :=
  if s.signal_time < cutoff then
    (saveSignal acc.1 { s with status := SignalStatus.expired, updated_at := now }, acc.2 + 1)
  else acc

/-- `OutcomeTracker.expire_old_signals`; hours are turned into seconds. -/
def expire_old_signals (storage : List Signal) (expiry_hours : Int) (now : Int) :
    List Signal × Nat :=
  let pending := get_pending storage 1000
  pending.foldl (expireStep (now - expiry_hours * 3600) now) (storage, 0)

/-- The per-signal mutation of `mark_failed`. -/
def failSignal (now : Int) (s : Signal) : Signal :=
  { s with
    status := SignalStatus.failed
    updated_at := now
    outcome := { s.outcome with
      simulated_pnl_pct := some (-100)
      simulated_pnl_sol := some (-s.simulated_buy_sol) } }

/-- `OutcomeTracker.mark_failed`: the source returns the list of the mutated
pending signals. -/
def mark_failed (storage : List Signal) (now : Int) (token_address : String) :
    List Signal × List Signal :=
  let pending := (get_by_token storage token_address).filter (fun s => s.status.isPending)
  (pending.foldl (fun acc s => saveSignal acc (failSignal now s)) storage,
   pending.map (failSignal now))

/-- Ids of a storage list are pairwise distinct (uuid primary keys). -/
def idsNodup (storage : List Signal) : Prop :=
  (storage.map Signal.id).Nodup

/-- Terminal statuses of the signal lifecycle. -/
def SignalStatus.isTerminal (st : SignalStatus) : Prop :=
  st = SignalStatus.migrated ∨ st = SignalStatus.failed ∨ st = SignalStatus.expired

/-! ## Concrete instances used by witnesses and counterexamples -/

/-- A concrete signal used by witnesses: entry price 0.001, buy 0.5. -/
def sampleSignal : Signal :=
  { id := 0
    token_address := "TOKpump"
    token_name := none
    token_symbol := none
    creator_address := none
    trigger_tx_signature := "sig0"
    signal_time := 0
    entry_curve_progress_pct := 0
    entry_liquidity_sol := 10
    entry_market_cap_sol := none
    entry_price_sol := some (1 / 1000)
    dev_holds_pct := none
    simulated_buy_sol := 1 / 2
    status := SignalStatus.pending
    outcome := SignalOutcome.initial
    created_at := 0
    updated_at := 0 }

/-- A concrete SWAP transaction without any pump-suffixed mint. -/
def sampleTxNoToken : RawTx :=
  { signature := "sigA"
    source := "PUMP_FUN"
    txType := "SWAP"
    timestamp := some 10
    slot := some 1
    feePayer := "payer"
    tokenTransfers := [{ mint := "someOtherMint", tokenAmount := 5 }]
    nativeTransfers := [{ amount := 1000000000 }]
    accountData := [{ nativeBalanceChange := -1000000000, tokenBalanceChanges := [] }] }

/-- Concrete generator inputs for the C1 witness. -/
def c1Thresholds : FilterThresholds :=
  { min_liquidity_sol := 0
    max_dev_holds_pct := 100
    min_curve_progress_pct := 0
    max_curve_progress_pct := 100 }

def c1State : GenState :=
  { signaled := ["TOKpump"], storage := [], nextId := 0 }

def c1Event : CurveProgressEvent :=
  { tx_signature := "sigB"
    timestamp := 3
    slot := none
    token_address := "TOKpump"
    curve_progress_pct := 50
    liquidity_sol := 10
    market_cap_sol := none
    token_price_sol := some (1 / 1000)
    token_amount := some 1000 }

/-- A migrated signal on the same token as `sampleSignal`. -/
def migratedSignal : Signal :=
  { sampleSignal with
    id := 1
    status := SignalStatus.migrated
    outcome := { SignalOutcome.initial with migrated := true } }

def c3Migration : MigrationEvent :=
  { tx_signature := "sigM"
    timestamp := 50
    slot := none
    token_address := "TOKpump"
    raydium_pool_address := none
    final_liquidity_sol := 20 }

def c3Curve : CurveProgressEvent :=
  { tx_signature := "sigC"
    timestamp := 60
    slot := none
    token_address := "TOKpump"
    curve_progress_pct := 70
    liquidity_sol := 12
    market_cap_sol := some 5000000
    token_price_sol := some (1 / 500)
    token_amount := some 1000 }

/-- A pending signal with integral entry price 1 and buy amount 1. -/
def c4Sig : Signal :=
  { sampleSignal with entry_price_sol := some 1, simulated_buy_sol := 1 }

/-- A migration event with `final_liquidity = 0` for the same token. -/
def c4MigrationZero : MigrationEvent :=
  { tx_signature := "sigZ"
    timestamp := 99
    slot := none
    token_address := "TOKpump"
    raydium_pool_address := none
    final_liquidity_sol := 0 }

/-- Indexed copies of the pending sample signal, one per id. -/
def c9Sig (i : Nat) : Signal := { sampleSignal with id := i }

/-- A storage holding 1001 pending signals, all with `signal_time = 0`. -/
def c9Storage : List Signal := (List.range 1001).map c9Sig

/-- A SWAP transaction with an empty native-transfer list and two nonzero
native balance changes of different magnitudes. -/
def c7Tx : RawTx :=
  { signature := "sigS"
    source := "PUMP_FUN"
    txType := "SWAP"
    timestamp := none
    slot := none
    feePayer := "payer7"
    tokenTransfers := [{ mint := "ABCpump", tokenAmount := 2 }]
    nativeTransfers := []
    accountData :=
      [{ nativeBalanceChange := 2000000000, tokenBalanceChanges := [] },
       { nativeBalanceChange := -4000000000, tokenBalanceChanges := [] }] }

/-- The event the classifier produces for `c7Tx`. -/
def c7Ev : CurveProgressEvent :=
  { tx_signature := "sigS"
    timestamp := 0
    slot := none
    token_address := "ABCpump"
    curve_progress_pct := 0
    liquidity_sol := 3
    market_cap_sol := some 2000000000
    token_price_sol := some 2
    token_amount := some 2 }

/-- Price projection of a parsed event. -/
def c7Price : ParsedEvent → Option ℚ
  | ParsedEvent.curveProgress ev => ev.token_price_sol
  | _ => none

/-! ## Theorems -/

/-! ### Association-list lemmas for the store -/

theorem lookup_mem {T : Type} {l : List (String × T)} {k : String} {v : T}
    (h : l.lookup k = some v) : (k, v) ∈ l := by
  induction l with
  | nil => simp [List.lookup] at h
  | cons a t ih =>
    rw [List.lookup] at h
    split at h
    · next heq =>
      cases h
      have hk : k = a.1 := by simpa using heq
      subst hk
      left
    · exact List.mem_cons_of_mem _ (ih h)

theorem lookup_eq_none_of_not_mem_keys {T : Type} {l : List (String × T)} {k : String}
    (h : k ∉ l.map Prod.fst) : l.lookup k = none := by
  rw [List.lookup_eq_none_iff]
  intro p hp
  simp only [bne_iff_ne, ne_eq]
  intro hk
  exact h (by rw [hk]; exact List.mem_map_of_mem Prod.fst hp)

theorem lookup_eraseP_self {T : Type} {l : List (String × T)} {k : String}
    (hnd : (l.map Prod.fst).Nodup) :
    (l.eraseP (fun p => p.1 == k)).lookup k = none := by
  induction l with
  | nil => rfl
  | cons a t ih =>
    rw [List.map_cons, List.nodup_cons] at hnd
    rw [List.eraseP_cons]
    by_cases ha : a.1 = k
    · have hpa : (a.1 == k) = true := by simpa using ha
      rw [hpa, cond_true]
      exact lookup_eq_none_of_not_mem_keys (by rw [ha] at hnd; exact hnd.1)
    · have hpa : (a.1 == k) = false := by simpa using ha
      rw [hpa, cond_false]
      rw [List.lookup]
      split
      · next heq =>
        have hk : k = a.1 := by simpa using heq
        exact absurd hk.symm ha
      · exact ih hnd.2

theorem lookup_eraseP_other {T : Type} (l : List (String × T)) (k k2 : String)
    (hne : k2 ≠ k) :
    (l.eraseP (fun p => p.1 == k)).lookup k2 = l.lookup k2 := by
  induction l with
  | nil => rfl
  | cons a t ih =>
    rw [List.eraseP_cons]
    by_cases ha : a.1 = k
    · have hpa : (a.1 == k) = true := by simpa using ha
      rw [hpa, cond_true]
      rw [List.lookup]
      split
      · next heq =>
        have hk : k2 = a.1 := by simpa using heq
        exact absurd (hk.trans ha) hne
      · rfl
    · have hpa : (a.1 == k) = false := by simpa using ha
      rw [hpa, cond_false]
      rw [List.lookup, List.lookup]
      split
      · rfl
      · exact ih

theorem lookup_moveToEnd {T : Type} {l : List (String × T)} {k : String} {v : T}
    (hnd : (l.map Prod.fst).Nodup) (h : l.lookup k = some v) (k2 : String) :
    ((l.eraseP (fun p => p.1 == k)) ++ [(k, v)]).lookup k2 = l.lookup k2 := by
  rw [List.lookup_append]
  by_cases hk : k2 = k
  · subst hk
    rw [lookup_eraseP_self hnd, h]
    simp
  · rw [lookup_eraseP_other l k k2 hk]
    have h1 : List.lookup k2 [(k, v)] = none := by
      rw [List.lookup_eq_none_iff]
      simp [hk]
    rw [h1]
    cases l.lookup k2 <;> rfl

theorem length_moveToEnd {T : Type} {l : List (String × T)} {k : String} {v : T}
    (h : l.lookup k = some v) :
    ((l.eraseP (fun p => p.1 == k)) ++ [(k, v)]).length = l.length := by
  have hm : (k, v) ∈ l := lookup_mem h
  have hp : (fun p => p.1 == k) (k, v) = true := by simp
  have hlen : (l.eraseP (fun p => p.1 == k)).length = l.length - 1 :=
    List.length_eraseP_of_mem hm hp
  have hpos : 0 < l.length := List.length_pos.mpr (List.ne_nil_of_mem hm)
  rw [List.length_append, hlen]
  simp
  omega

/-! ### Invariant: the store never exceeds its capacity -/

theorem contains_size {T : Type} (s : IdempotencyStore T) (k : String) :
    ((s.contains k).2).size = s.size := by
  unfold IdempotencyStore.contains IdempotencyStore.size
  split
  · next v h => exact length_moveToEnd h
  · rfl

theorem contains_max_size {T : Type} (s : IdempotencyStore T) (k : String) :
    ((s.contains k).2).max_size = s.max_size := by
  unfold IdempotencyStore.contains
  split <;> rfl

theorem add_max_size {T : Type} (s : IdempotencyStore T) (k : String) (v : T) :
    (s.add k v).max_size = s.max_size := by
  unfold IdempotencyStore.add
  split <;> rfl

theorem add_size_le {T : Type} (s : IdempotencyStore T) (k : String) (v : T)
    (h : s.size ≤ s.max_size) : (s.add k v).size ≤ s.max_size := by
  unfold IdempotencyStore.add
  split
  · next w hw =>
    show ((s.store.eraseP (fun p => p.1 == k)) ++ [(k, w)]).length ≤ s.max_size
    rw [length_moveToEnd hw]
    exact h
  · show ((s.store ++ [(k, v)]).drop ((s.store ++ [(k, v)]).length - s.max_size)).length ≤
      s.max_size
    rw [List.length_drop]
    omega

theorem applyOp_invariant {T : Type} (s : IdempotencyStore T) (op : CacheOp T)
    (h : s.size ≤ s.max_size) :
    (s.applyOp op).size ≤ (s.applyOp op).max_size ∧ (s.applyOp op).max_size = s.max_size := by
  cases op with
  | containsOp k =>
    simp only [IdempotencyStore.applyOp]
    refine ⟨?_, contains_max_size s k⟩
    rw [contains_size, contains_max_size]
    exact h
  | addOp k v =>
    simp only [IdempotencyStore.applyOp]
    refine ⟨?_, add_max_size s k v⟩
    rw [add_max_size]
    exact add_size_le s k v h

theorem runOps_size_le {T : Type} (ops : List (CacheOp T)) (s : IdempotencyStore T)
    (h : s.size ≤ s.max_size) :
    (s.runOps ops).size ≤ s.max_size := by
  induction ops generalizing s with
  | nil => exact h
  | cons op ops ih =>
    rw [IdempotencyStore.runOps]
    have h1 := applyOp_invariant s op h
    have h2 := ih (s.applyOp op) h1.1
    rwa [h1.2] at h2

/-- Claim C5: the deduplication store never holds more than its capacity
(default 10,000) after any sequence of `contains` / `add` operations starting
from a fresh store, and when an `add` of a new key finds the store at
capacity, the entry evicted is the front (least-recently-touched) one;
recency is refreshed by a `contains` hit (which moves the key to the back)
and by insertion (which appends at the back). -/
theorem claim_c5_capacity_and_lru_eviction :
    (∀ (T : Type) (maxN : Nat) (ops : List (CacheOp T)),
      ((IdempotencyStore.emptyStore T maxN).runOps ops).size ≤ maxN) ∧
    (∀ (T : Type) (s : IdempotencyStore T) (k : String) (v : T),
      s.store.lookup k = none → s.size = s.max_size → 0 < s.max_size →
      (s.add k v).store = s.store.drop 1 ++ [(k, v)]) ∧
    (∀ (T : Type) (s : IdempotencyStore T) (k : String) (v : T),
      s.store.lookup k = some v →
      ((s.contains k).2).store = (s.store.eraseP (fun p => p.1 == k)) ++ [(k, v)]) ∧
    IdempotencyStore.defaultMaxSize = 10000 := by
  refine ⟨?_, ?_, ?_, rfl⟩
  · intro T maxN ops
    exact runOps_size_le ops _ (by simp [IdempotencyStore.emptyStore, IdempotencyStore.size])
  · intro T s k v hnone hfull hpos
    unfold IdempotencyStore.add
    rw [hnone]
    show (s.store ++ [(k, v)]).drop ((s.store ++ [(k, v)]).length - s.max_size) =
      s.store.drop 1 ++ [(k, v)]
    have hlen : (s.store ++ [(k, v)]).length = s.max_size + 1 := by
      rw [List.length_append]
      unfold IdempotencyStore.size at hfull
      simp [hfull]
    rw [hlen]
    have h1 : s.max_size + 1 - s.max_size = 1 := by omega
    rw [h1]
    exact List.drop_append_of_le_length (by unfold IdempotencyStore.size at hfull; omega)
  · intro T s k v h
    unfold IdempotencyStore.contains
    rw [h]

/-- Witness for C5: a concrete full two-slot store evicts its oldest key. -/
theorem claim_c5_witness :
    (List.lookup ("c") [(("a" : String), 1), ("b", 2)] = none) ∧
    (IdempotencyStore.add ⟨2, [(("a" : String), 1), ("b", 2)]⟩ ("c") 7).store =
      [(("a" : String), 1), ("b", 2)].drop 1 ++ [(("c" : String), 7)] :=
  ⟨by decide,
   claim_c5_capacity_and_lru_eviction.2.1 Nat ⟨2, [("a", 1), ("b", 2)]⟩ ("c") 7
     (by decide) (by decide) (by decide)⟩

/-- Claim C10: `add` on an already-present key discards the new value, keeps
all stored contents and the length, evicts nothing, and only refreshes the
position of the key (erase-then-append on the recency list). -/
theorem claim_c10_add_existing_key_noop :
    ∀ (T : Type) (s : IdempotencyStore T) (k : String) (v vNew : T),
      (s.store.map Prod.fst).Nodup →
      s.store.lookup k = some v →
      (s.add k vNew).get k = some v ∧
      (s.add k vNew).size = s.size ∧
      (∀ k2, (s.add k vNew).get k2 = s.get k2) ∧
      (s.add k vNew).store = (s.store.eraseP (fun p => p.1 == k)) ++ [(k, v)] := by
  intro T s k v vNew hnd h
  have hstore : (s.add k vNew).store = (s.store.eraseP (fun p => p.1 == k)) ++ [(k, v)] := by
    unfold IdempotencyStore.add
    rw [h]
  refine ⟨?_, ?_, ?_, hstore⟩
  · show (s.add k vNew).store.lookup k = some v
    rw [hstore, lookup_moveToEnd hnd h k]
    exact h
  · show (s.add k vNew).store.length = s.store.length
    rw [hstore]
    exact length_moveToEnd h
  · intro k2
    show (s.add k vNew).store.lookup k2 = s.store.lookup k2
    rw [hstore]
    exact lookup_moveToEnd hnd h k2

/-- Witness for C10: adding a duplicate key with a new value keeps the old
value and the length on a concrete store. -/
theorem claim_c10_witness :
    ([(("a" : String), 1), ("b", 2)].map Prod.fst).Nodup ∧
    (IdempotencyStore.add ⟨10, [(("a" : String), 1), ("b", 2)]⟩ ("a") 99).get ("a") = some 1 ∧
    (IdempotencyStore.add ⟨10, [(("a" : String), 1), ("b", 2)]⟩ ("a") 99).size = 2 :=
  ⟨by decide,
   (claim_c10_add_existing_key_noop Nat ⟨10, [("a", 1), ("b", 2)]⟩ ("a") 1 99
     (by decide) (by decide)).1,
   ((claim_c10_add_existing_key_noop Nat ⟨10, [("a", 1), ("b", 2)]⟩ ("a") 1 99
     (by decide) (by decide)).2.1).trans (by decide)⟩

/-! ### Signal and PnL helper lemmas -/

theorem isPending_iff {st : SignalStatus} : st.isPending = true ↔ st = SignalStatus.pending := by
  cases st <;> simp [SignalStatus.isPending]

theorem calculate_pnl_noop (s : Signal) (exitP : ℚ) (now : Int)
    (h : s.entry_price_sol = none ∨ s.entry_price_sol = some 0) :
    s.calculate_simulated_pnl exitP now = s := by
  rcases h with h | h <;> simp [Signal.calculate_simulated_pnl, h]

theorem calculate_pnl_outcome_preserves (s : Signal) (exitP : ℚ) (now : Int) :
    (s.calculate_simulated_pnl exitP now).outcome.migrated = s.outcome.migrated ∧
    (s.calculate_simulated_pnl exitP now).outcome.migration_time =
      s.outcome.migration_time := by
  rcases hp : s.entry_price_sol with _ | entry
  · rw [calculate_pnl_noop s exitP now (Or.inl hp)]
    exact ⟨rfl, rfl⟩
  · by_cases hz : entry = 0
    · rw [calculate_pnl_noop s exitP now (Or.inr (hz ▸ hp))]
      exact ⟨rfl, rfl⟩
    · simp only [Signal.calculate_simulated_pnl, hp]
      rw [if_neg hz]
      by_cases hb : 0 < s.simulated_buy_sol
      · rw [if_pos hb]
        exact ⟨rfl, rfl⟩
      · rw [if_neg hb]
        exact ⟨rfl, rfl⟩

theorem calculate_pnl_preserves (s : Signal) (exitP : ℚ) (now : Int) :
    (s.calculate_simulated_pnl exitP now).id = s.id ∧
    (s.calculate_simulated_pnl exitP now).status = s.status ∧
    (s.calculate_simulated_pnl exitP now).token_address = s.token_address ∧
    (s.calculate_simulated_pnl exitP now).signal_time = s.signal_time ∧
    (s.calculate_simulated_pnl exitP now).entry_price_sol = s.entry_price_sol ∧
    (s.calculate_simulated_pnl exitP now).simulated_buy_sol = s.simulated_buy_sol := by
  unfold Signal.calculate_simulated_pnl
  split
  · exact ⟨rfl, rfl, rfl, rfl, rfl, rfl⟩
  · split
    · exact ⟨rfl, rfl, rfl, rfl, rfl, rfl⟩
    · exact ⟨rfl, rfl, rfl, rfl, rfl, rfl⟩

theorem calculate_pnl_fields (s : Signal) (entry exitP : ℚ) (now : Int)
    (he : s.entry_price_sol = some entry) (hp : entry ≠ 0) :
    (s.calculate_simulated_pnl exitP now).outcome.simulated_entry_sol =
      some s.simulated_buy_sol ∧
    (s.calculate_simulated_pnl exitP now).outcome.simulated_exit_sol =
      some (s.simulated_buy_sol / entry * exitP) ∧
    (s.calculate_simulated_pnl exitP now).outcome.simulated_pnl_sol =
      some (s.simulated_buy_sol / entry * exitP - s.simulated_buy_sol) ∧
    (0 < s.simulated_buy_sol →
      (s.calculate_simulated_pnl exitP now).outcome.simulated_pnl_pct =
        some ((s.simulated_buy_sol / entry * exitP - s.simulated_buy_sol) /
          s.simulated_buy_sol * 100)) ∧
    (s.calculate_simulated_pnl exitP now).updated_at = now ∧
    (s.calculate_simulated_pnl exitP now).outcome.migrated = s.outcome.migrated ∧
    (s.calculate_simulated_pnl exitP now).outcome.migration_time = s.outcome.migration_time := by
  simp only [Signal.calculate_simulated_pnl, he]
  rw [if_neg hp]
  by_cases hb : 0 < s.simulated_buy_sol
  · rw [if_pos hb]
    exact ⟨rfl, rfl, rfl, fun _ => rfl, rfl, rfl, rfl⟩
  · rw [if_neg hb]
    exact ⟨rfl, rfl, rfl, fun h => absurd h hb, rfl, rfl, rfl⟩

/-! ### Sorting lemmas for the modelled `ORDER BY` queries -/

theorem mem_insertDescByTime {a s : Signal} : ∀ {l : List Signal},
    (a ∈ insertDescByTime s l ↔ a = s ∨ a ∈ l) := by
  intro l
  induction l with
  | nil => simp [insertDescByTime]
  | cons x xs ih =>
    rw [insertDescByTime]
    split
    · simp [List.mem_cons]
    · simp only [List.mem_cons, ih]
      tauto

theorem pairwise_insertDescByTime {s : Signal} : ∀ {l : List Signal},
    l.Pairwise (fun a b => b.signal_time ≤ a.signal_time) →
    (insertDescByTime s l).Pairwise (fun a b => b.signal_time ≤ a.signal_time) := by
  intro l
  induction l with
  | nil => intro _; simp [insertDescByTime]
  | cons x xs ih =>
    intro h
    have hx := List.pairwise_cons.mp h
    rw [insertDescByTime]
    split
    · next hlt =>
      rw [List.pairwise_cons]
      refine ⟨?_, h⟩
      intro b hb
      rcases List.mem_cons.mp hb with rfl | hb2
      · exact le_of_lt hlt
      · exact le_trans (hx.1 b hb2) (le_of_lt hlt)
    · next hge =>
      rw [List.pairwise_cons]
      refine ⟨?_, ih hx.2⟩
      intro b hb
      rcases mem_insertDescByTime.mp hb with rfl | hb2
      · exact not_lt.mp hge
      · exact hx.1 b hb2

theorem mem_foldl_insertDesc {a : Signal} : ∀ (l acc : List Signal),
    (a ∈ l.foldl (fun acc s => insertDescByTime s acc) acc ↔ a ∈ acc ∨ a ∈ l) := by
  intro l
  induction l with
  | nil => intro acc; simp
  | cons x xs ih =>
    intro acc
    rw [List.foldl_cons, ih, mem_insertDescByTime]
    simp only [List.mem_cons]
    tauto

theorem pairwise_foldl_insertDesc : ∀ (l acc : List Signal),
    acc.Pairwise (fun a b => b.signal_time ≤ a.signal_time) →
    (l.foldl (fun acc s => insertDescByTime s acc) acc).Pairwise
      (fun a b => b.signal_time ≤ a.signal_time) := by
  intro l
  induction l with
  | nil => intro acc h; exact h
  | cons x xs ih =>
    intro acc h
    rw [List.foldl_cons]
    exact ih _ (pairwise_insertDescByTime h)

theorem mem_sortByTimeDesc {a : Signal} {l : List Signal} :
    a ∈ sortByTimeDesc l ↔ a ∈ l := by
  unfold sortByTimeDesc
  rw [mem_foldl_insertDesc]
  simp

theorem pairwise_sortByTimeDesc (l : List Signal) :
    (sortByTimeDesc l).Pairwise (fun a b => b.signal_time ≤ a.signal_time) :=
  pairwise_foldl_insertDesc l [] (by simp)

theorem mem_insertAscByTime {a s : Signal} : ∀ {l : List Signal},
    (a ∈ insertAscByTime s l ↔ a = s ∨ a ∈ l) := by
  intro l
  induction l with
  | nil => simp [insertAscByTime]
  | cons x xs ih =>
    rw [insertAscByTime]
    split
    · simp [List.mem_cons]
    · simp only [List.mem_cons, ih]
      tauto

theorem mem_foldl_insertAsc {a : Signal} : ∀ (l acc : List Signal),
    (a ∈ l.foldl (fun acc s => insertAscByTime s acc) acc ↔ a ∈ acc ∨ a ∈ l) := by
  intro l
  induction l with
  | nil => intro acc; simp
  | cons x xs ih =>
    intro acc
    rw [List.foldl_cons, ih, mem_insertAscByTime]
    simp only [List.mem_cons]
    tauto

theorem mem_sortByTimeAsc {a : Signal} {l : List Signal} :
    a ∈ sortByTimeAsc l ↔ a ∈ l := by
  unfold sortByTimeAsc
  rw [mem_foldl_insertAsc]
  simp

theorem length_insertAscByTime (s : Signal) : ∀ (l : List Signal),
    (insertAscByTime s l).length = l.length + 1 := by
  intro l
  induction l with
  | nil => rfl
  | cons x xs ih =>
    rw [insertAscByTime]
    split
    · rfl
    · rw [List.length_cons, ih, List.length_cons]

theorem length_foldl_insertAsc : ∀ (l acc : List Signal),
    (l.foldl (fun acc s => insertAscByTime s acc) acc).length = acc.length + l.length := by
  intro l
  induction l with
  | nil => intro acc; rfl
  | cons x xs ih =>
    intro acc
    rw [List.foldl_cons, ih, length_insertAscByTime]
    simp [Nat.add_comm, Nat.add_assoc, Nat.add_left_comm]

theorem length_sortByTimeAsc (l : List Signal) : (sortByTimeAsc l).length = l.length := by
  unfold sortByTimeAsc
  rw [length_foldl_insertAsc]
  simp

theorem insertAscByTime_all_eq {s : Signal} {τ : Int} (hs : s.signal_time = τ) :
    ∀ {l : List Signal}, (∀ x ∈ l, x.signal_time = τ) → insertAscByTime s l = l ++ [s] := by
  intro l
  induction l with
  | nil => intro _; rfl
  | cons x xs ih =>
    intro hl
    rw [insertAscByTime]
    have hx : x.signal_time = τ := hl x (by simp)
    rw [if_neg (by rw [hs, hx]; exact lt_irrefl τ)]
    rw [ih (fun y hy => hl y (List.mem_cons_of_mem x hy))]
    rfl

theorem foldl_insertAsc_all_eq {τ : Int} : ∀ (l acc : List Signal),
    (∀ x ∈ l, x.signal_time = τ) → (∀ x ∈ acc, x.signal_time = τ) →
    l.foldl (fun acc s => insertAscByTime s acc) acc = acc ++ l := by
  intro l
  induction l with
  | nil => intro acc _ _; simp
  | cons x xs ih =>
    intro acc hl hacc
    rw [List.foldl_cons]
    rw [insertAscByTime_all_eq (hl x (by simp)) hacc]
    rw [ih (acc ++ [x]) (fun y hy => hl y (List.mem_cons_of_mem x hy))]
    · simp
    · intro y hy
      rcases List.mem_append.mp hy with hy1 | hy2
      · exact hacc y hy1
      · rw [List.mem_singleton.mp hy2]
        exact hl x (by simp)

theorem sortByTimeAsc_all_eq {τ : Int} {l : List Signal}
    (hl : ∀ x ∈ l, x.signal_time = τ) : sortByTimeAsc l = l := by
  unfold sortByTimeAsc
  rw [foldl_insertAsc_all_eq l [] hl (by simp)]
  simp

/-! ### Store upsert and membership lemmas -/

theorem mem_saveSignal_of_ne {storage : List Signal} {sig x : Signal}
    (hx : x ∈ storage) (hne : x.id ≠ sig.id) : x ∈ saveSignal storage sig := by
  unfold saveSignal
  split
  · exact List.mem_map.mpr ⟨x, hx, by rw [if_neg hne]⟩
  · exact List.mem_append_left _ hx

theorem sig_mem_saveSignal (storage : List Signal) (sig : Signal) :
    sig ∈ saveSignal storage sig := by
  unfold saveSignal
  split
  · next h =>
    rw [List.any_eq_true] at h
    obtain ⟨s, hs, hid⟩ := h
    exact List.mem_map.mpr ⟨s, hs, by rw [if_pos (by simpa using hid)]⟩
  · exact List.mem_append_right _ (by simp)

theorem mem_get_by_token {storage : List Signal} {tok : String} {s : Signal} :
    s ∈ get_by_token storage tok ↔ s ∈ storage ∧ s.token_address = tok := by
  unfold get_by_token
  rw [mem_sortByTimeDesc, List.mem_filter]
  simp

theorem mem_pending_of_token {storage : List Signal} {tok : String} {s : Signal}
    (h : s ∈ (get_by_token storage tok).filter (fun s => s.status.isPending)) :
    s ∈ storage ∧ s.token_address = tok ∧ s.status = SignalStatus.pending := by
  have h1 := List.mem_filter.mp h
  have h2 := mem_get_by_token.mp h1.1
  exact ⟨h2.1, h2.2, isPending_iff.mp h1.2⟩

theorem mem_get_pending {storage : List Signal} {lim : Nat} {s : Signal}
    (h : s ∈ get_pending storage lim) :
    s ∈ storage ∧ s.status = SignalStatus.pending := by
  unfold get_pending at h
  have h1 := List.mem_of_mem_take h
  rw [mem_sortByTimeAsc, List.mem_filter] at h1
  exact ⟨h1.1, isPending_iff.mp h1.2⟩

theorem eq_of_mem_of_id_eq {storage : List Signal} (hnd : idsNodup storage) {x y : Signal}
    (hx : x ∈ storage) (hy : y ∈ storage) (h : x.id = y.id) : x = y :=
  List.inj_on_of_nodup_map hnd hx hy h

/-! ### Fold-preservation lemmas: tracker loops never touch other ids -/

theorem mem_foldl_curveUpdate {now : Int} {cp? : Option ℚ} :
    ∀ (l : List Signal) (acc : List Signal × List Signal) (x : Signal),
      x ∈ acc.1 → (∀ s ∈ l, s.id ≠ x.id) →
      x ∈ (l.foldl (curveUpdateStep now cp?) acc).1 := by
  intro l
  induction l with
  | nil => intro acc x hx _; exact hx
  | cons s t ih =>
    intro acc x hx hids
    rw [List.foldl_cons]
    refine ih _ x ?_ (fun s2 hs2 => hids s2 (List.mem_cons_of_mem s hs2))
    cases cp? with
    | none => exact hx
    | some cp =>
      rw [curveUpdateStep]
      by_cases hc : (cp != 0 && decTruthy s.entry_price_sol) = true
      · rw [if_pos hc]
        show x ∈ saveSignal acc.1
          ({ s.calculate_simulated_pnl cp now with updated_at := now } : Signal)
        refine mem_saveSignal_of_ne hx ?_
        have hid : ({ s.calculate_simulated_pnl cp now with updated_at := now } : Signal).id =
            s.id := (calculate_pnl_preserves s cp now).1
        rw [hid]
        exact fun h => (hids s (by simp)) h.symm
      · rw [if_neg hc]
        exact hx

theorem mem_foldl_expire {cutoff now : Int} :
    ∀ (l : List Signal) (acc : List Signal × Nat) (x : Signal),
      x ∈ acc.1 → (∀ s ∈ l, s.id ≠ x.id) →
      x ∈ (l.foldl (expireStep cutoff now) acc).1 := by
  intro l
  induction l with
  | nil => intro acc x hx _; exact hx
  | cons s t ih =>
    intro acc x hx hids
    rw [List.foldl_cons]
    refine ih _ x ?_ (fun s2 hs2 => hids s2 (List.mem_cons_of_mem s hs2))
    unfold expireStep
    by_cases hc : s.signal_time < cutoff
    · rw [if_pos hc]
      show x ∈ saveSignal acc.1 { s with status := SignalStatus.expired, updated_at := now }
      exact mem_saveSignal_of_ne hx (fun h => (hids s (by simp)) h.symm)
    · rw [if_neg hc]
      exact hx

theorem mem_foldl_markFailed {now : Int} :
    ∀ (l : List Signal) (acc : List Signal) (x : Signal),
      x ∈ acc → (∀ s ∈ l, s.id ≠ x.id) →
      x ∈ l.foldl (fun acc s => saveSignal acc (failSignal now s)) acc := by
  intro l
  induction l with
  | nil => intro acc x hx _; exact hx
  | cons s t ih =>
    intro acc x hx hids
    rw [List.foldl_cons]
    refine ih _ x ?_ (fun s2 hs2 => hids s2 (List.mem_cons_of_mem s hs2))
    exact mem_saveSignal_of_ne hx (fun h => (hids s (by simp)) h.symm)

/-! ### Claim C2 -/

/-- Claim C2: for a Signal with entry price `p > 0` and buy amount `b > 0`,
`calculate_simulated_pnl e` sets `tokens_bought = b / p`,
`exit_value = tokens_bought * e`, `simulated_pnl_amount = exit_value - b` and
`simulated_pnl_pct = (exit_value - b) / b * 100`; with entry price `0.001`,
buy `0.5` and exit `0.002` this gives `+100` percent and `+0.5`; when the
entry price is unset or zero the call leaves the signal unchanged. -/
theorem claim_c2_pnl_law :
    (∀ (s : Signal) (entry exitP : ℚ) (now : Int),
      s.entry_price_sol = some entry → 0 < entry → 0 < s.simulated_buy_sol →
      (s.calculate_simulated_pnl exitP now).outcome.simulated_entry_sol =
        some s.simulated_buy_sol ∧
      (s.calculate_simulated_pnl exitP now).outcome.simulated_exit_sol =
        some (s.simulated_buy_sol / entry * exitP) ∧
      (s.calculate_simulated_pnl exitP now).outcome.simulated_pnl_sol =
        some (s.simulated_buy_sol / entry * exitP - s.simulated_buy_sol) ∧
      (s.calculate_simulated_pnl exitP now).outcome.simulated_pnl_pct =
        some ((s.simulated_buy_sol / entry * exitP - s.simulated_buy_sol) /
          s.simulated_buy_sol * 100)) ∧
    (∀ (s : Signal) (exitP : ℚ) (now : Int),
      s.entry_price_sol = none ∨ s.entry_price_sol = some 0 →
      s.calculate_simulated_pnl exitP now = s) ∧
    (∀ (s : Signal) (now : Int),
      s.entry_price_sol = some (1 / 1000) → s.simulated_buy_sol = 1 / 2 →
      (s.calculate_simulated_pnl (2 / 1000) now).outcome.simulated_pnl_pct = some 100 ∧
      (s.calculate_simulated_pnl (2 / 1000) now).outcome.simulated_pnl_sol = some (1 / 2)) := by
  refine ⟨?_, ?_, ?_⟩
  · intro s entry exitP now he hp hb
    have h := calculate_pnl_fields s entry exitP now he (ne_of_gt hp)
    exact ⟨h.1, h.2.1, h.2.2.1, h.2.2.2.1 hb⟩
  · intro s exitP now h
    exact calculate_pnl_noop s exitP now h
  · intro s now he hbuy
    have hb : 0 < s.simulated_buy_sol := by rw [hbuy]; norm_num
    have h := calculate_pnl_fields s (1 / 1000) (2 / 1000) now he (by norm_num)
    constructor
    · rw [h.2.2.2.1 hb, hbuy]
      norm_num
    · rw [h.2.2.1, hbuy]
      norm_num

/-- Witness for C2 at the concrete numbers fixed by the spec. -/
theorem claim_c2_witness :
    sampleSignal.entry_price_sol = some (1 / 1000) ∧
    sampleSignal.simulated_buy_sol = 1 / 2 ∧
    (sampleSignal.calculate_simulated_pnl (2 / 1000) 5).outcome.simulated_pnl_pct =
      some 100 ∧
    (sampleSignal.calculate_simulated_pnl (2 / 1000) 5).outcome.simulated_pnl_sol =
      some (1 / 2) :=
  ⟨rfl, rfl,
   (claim_c2_pnl_law.2.2 sampleSignal 5 rfl rfl).1,
   (claim_c2_pnl_law.2.2 sampleSignal 5 rfl rfl).2⟩

/-! ### Claim C6: classifier totality -/

theorem findPumpTransfer_eq_none {l : List TokenTransfer}
    (h : l.any (fun t => strEndsWith t.mint PUMP_TOKEN_SUFFIX) = false) :
    findPumpTransfer l = none := by
  rw [findPumpTransfer, List.find?_eq_none]
  rw [List.any_eq_false] at h
  exact h

theorem findPumpInAccounts_eq_none : ∀ {accs : List AccountData},
    (∀ a ∈ accs,
      a.tokenBalanceChanges.any (fun t => strEndsWith t.mint PUMP_TOKEN_SUFFIX) = false) →
    findPumpInAccounts accs = none := by
  intro accs
  unfold findPumpInAccounts
  induction accs with
  | nil => intro _; rfl
  | cons a t ih =>
    intro h
    rw [List.foldl_cons]
    have ha : a.tokenBalanceChanges.find? (fun t => strEndsWith t.mint PUMP_TOKEN_SUFFIX) =
        none := by
      rw [List.find?_eq_none]
      have hh := h a (by simp)
      rw [List.any_eq_false] at hh
      exact hh
    rw [ha]
    exact ih (fun x hx => h x (List.mem_cons_of_mem a hx))

theorem build_token_created_none {tx : RawTx} {now : Int}
    (hft : findPumpTransfer tx.tokenTransfers = none)
    (hfa : findPumpInAccounts tx.accountData = none) :
    build_token_created tx now = none := by
  unfold build_token_created
  rw [hft, hfa]

theorem build_curve_progress_none {tx : RawTx} {now : Int}
    (hft : findPumpTransfer tx.tokenTransfers = none)
    (hfa : findPumpInAccounts tx.accountData = none) :
    build_curve_progress tx now = none := by
  unfold build_curve_progress findCurveToken
  rw [hft, hfa]

theorem build_migration_none {tx : RawTx} {now : Int}
    (hft : findPumpTransfer tx.tokenTransfers = none) :
    build_migration tx now = none := by
  unfold build_migration
  rw [hft]

/-- Claim C6: the classifier is total over raw transactions (the embedding is
a total function into `Option`; the `try/except` of the source yields `None`
on any internal failure) and any transaction without a resolvable subject
token, i.e. without a pump-suffixed mint in `tokenTransfers` or in the
account balance changes, parses to no event. -/
theorem claim_c6_classifier_totality :
    ∀ (tx : RawTx) (now : Int), hasPumpToken tx = false → parse_transaction tx now = none := by
  intro tx now h
  unfold hasPumpToken at h
  have h1 : tx.tokenTransfers.any (fun t => strEndsWith t.mint PUMP_TOKEN_SUFFIX) = false :=
    (Bool.or_eq_false_iff.mp h).1
  have h2 := (Bool.or_eq_false_iff.mp h).2
  rw [List.any_eq_false] at h2
  have hft : findPumpTransfer tx.tokenTransfers = none := findPumpTransfer_eq_none h1
  have hfa : findPumpInAccounts tx.accountData = none := by
    refine findPumpInAccounts_eq_none ?_
    intro a ha
    have := h2 a ha
    simpa using this
  unfold parse_transaction
  split
  · rfl
  · split
    · rfl
    · split
      · rw [build_token_created_none hft hfa]
        rfl
      · rw [build_curve_progress_none hft hfa]
        rfl
      · rw [build_migration_none hft]
        rfl
      · rfl

/-- Witness for C6: the concrete tokenless transaction parses to nothing. -/
theorem claim_c6_witness :
    hasPumpToken sampleTxNoToken = false ∧ parse_transaction sampleTxNoToken 0 = none :=
  ⟨by decide, claim_c6_classifier_totality sampleTxNoToken 0 (by decide)⟩

/-! ### Claim C1: generator uniqueness -/

theorem genStep_none_of_signaled (f : FilterThresholds) (buy : ℚ) (st : GenState)
    (ev : GenEvent) (h : ev.token ∈ st.signaled) : genStep f buy st ev = (st, none) := by
  cases ev with
  | curve now e =>
    have hc : st.signaled.contains e.token_address = true := List.elem_iff.mpr h
    simp only [genStep]
    unfold evaluate_curve_progress
    rw [if_pos hc]
  | created now e =>
    have hc : st.signaled.contains e.token_address = true := List.elem_iff.mpr h
    simp only [genStep]
    unfold evaluate_token_created
    rw [if_pos hc]

theorem genStep_some (f : FilterThresholds) (buy : ℚ) (st : GenState) (ev : GenEvent)
    {st2 : GenState} {sig : Signal} (h : genStep f buy st ev = (st2, some sig)) :
    sig.token_address = ev.token ∧ ev.token ∉ st.signaled ∧
    st2.signaled = ev.token :: st.signaled := by
  cases ev with
  | curve now e =>
    simp only [genStep] at h
    unfold evaluate_curve_progress at h
    by_cases hc : st.signaled.contains e.token_address = true
    · rw [if_pos hc] at h
      cases h
    · rw [if_neg hc] at h
      have hmem : e.token_address ∉ st.signaled := fun hm => hc (List.elem_iff.mpr hm)
      revert h
      split
      · intro h
        cases h
      · intro h
        cases h
        exact ⟨rfl, hmem, rfl⟩
  | created now e =>
    simp only [genStep] at h
    unfold evaluate_token_created at h
    by_cases hc : st.signaled.contains e.token_address = true
    · rw [if_pos hc] at h
      cases h
    · rw [if_neg hc] at h
      have hmem : e.token_address ∉ st.signaled := fun hm => hc (List.elem_iff.mpr hm)
      by_cases hliq : e.initial_liquidity_sol < f.min_liquidity_sol
      · rw [if_pos hliq] at h
        cases h
      · rw [if_neg hliq] at h
        cases h
        exact ⟨rfl, hmem, rfl⟩

theorem genStep_signaled_mono (f : FilterThresholds) (buy : ℚ) (st : GenState)
    (ev : GenEvent) {t : String} (h : t ∈ st.signaled) :
    t ∈ (genStep f buy st ev).1.signaled := by
  rcases hr : genStep f buy st ev with ⟨st2, out⟩
  cases out with
  | none =>
    cases ev with
    | curve now e =>
      simp only [genStep] at hr
      unfold evaluate_curve_progress at hr
      revert hr
      split
      · intro hr
        cases hr
        exact h
      · split
        · intro hr
          cases hr
          exact h
        · intro hr
          cases hr
    | created now e =>
      simp only [genStep] at hr
      unfold evaluate_token_created at hr
      revert hr
      split
      · intro hr
        cases hr
        exact h
      · split
        · intro hr
          cases hr
          exact h
        · intro hr
          cases hr
  | some sig =>
    have hs := genStep_some f buy st ev hr
    show t ∈ st2.signaled
    rw [hs.2.2]
    exact List.mem_cons_of_mem _ h

theorem runGen_count (f : FilterThresholds) (buy : ℚ) (t : String) :
    ∀ (evs : List GenEvent) (st : GenState),
      ((runGen f buy st evs).2.filter (fun s => s.token_address == t)).length ≤ 1 ∧
      (t ∈ st.signaled →
        ((runGen f buy st evs).2.filter (fun s => s.token_address == t)).length = 0) := by
  intro evs
  induction evs with
  | nil =>
    intro st
    exact ⟨by simp [runGen], fun _ => by simp [runGen]⟩
  | cons ev evs ih =>
    intro st
    rcases hr : genStep f buy st ev with ⟨st2, out⟩
    have hrun : runGen f buy st (ev :: evs) =
        ((runGen f buy st2 evs).1, out.toList ++ (runGen f buy st2 evs).2) := by
      rw [runGen, hr]
    cases out with
    | none =>
      rw [hrun]
      simpa using ih st2 |>.imp id (fun h2 ht => h2 (by
        have := genStep_signaled_mono f buy st ev ht
        rw [hr] at this
        exact this))
    | some sig =>
      have hs := genStep_some f buy st ev hr
      rw [hrun]
      by_cases htok : sig.token_address = t
      · have hzero : ((runGen f buy st2 evs).2.filter
            (fun s => s.token_address == t)).length = 0 := by
          refine (ih st2).2 ?_
          rw [hs.2.2, ← htok, hs.1]
          exact List.mem_cons_self _ _
        constructor
        · simp only [Option.toList_some, List.singleton_append, List.filter_cons,
            htok]
          simp [hzero]
        · intro ht
          exact absurd ht (by rw [← htok, hs.1] at *; exact hs.2.1)
      · constructor
        · simp only [Option.toList_some, List.singleton_append, List.filter_cons]
          have hbeq : (sig.token_address == t) = false := by simpa using htok
          rw [hbeq]
          exact (ih st2).1
        · intro ht
          simp only [Option.toList_some, List.singleton_append, List.filter_cons]
          have hbeq : (sig.token_address == t) = false := by simpa using htok
          rw [hbeq]
          refine (ih st2).2 ?_
          have := genStep_signaled_mono f buy st ev ht
          rw [hr] at this
          exact this

/-- Claim C1: for a fixed subject token the generator creates at most one
signal across any sequence of evaluations (curve-progress or token-created)
until `clear_signaled_tokens`, and an evaluation whose token is already in the
signaled set returns nothing and leaves the whole generator state, storage
included, unchanged. -/
theorem claim_c1_generator_uniqueness :
    (∀ (f : FilterThresholds) (buy : ℚ) (st : GenState) (ev : GenEvent),
      ev.token ∈ st.signaled → genStep f buy st ev = (st, none)) ∧
    (∀ (f : FilterThresholds) (buy : ℚ) (st : GenState) (evs : List GenEvent) (t : String),
      ((runGen f buy st evs).2.filter (fun s => s.token_address == t)).length ≤ 1) ∧
    (∀ st : GenState, (clear_signaled_tokens st).signaled = []) := by
  refine ⟨genStep_none_of_signaled, ?_, fun st => rfl⟩
  intro f buy st evs t
  exact (runGen_count f buy t evs st).1

/-- Witness for C1: an event for an already-signaled token is a no-op. -/
theorem claim_c1_witness :
    (GenEvent.curve 4 c1Event).token ∈ c1State.signaled ∧
    genStep c1Thresholds (1 / 10) c1State (GenEvent.curve 4 c1Event) = (c1State, none) :=
  ⟨by decide,
   claim_c1_generator_uniqueness.1 c1Thresholds (1 / 10) c1State (GenEvent.curve 4 c1Event)
     (by decide)⟩

/-! ### Claim C3: terminal states are final -/

theorem migrateSignal_basic (now : Int) (e : MigrationEvent) (sig0 : Signal) :
    (migrateSignal now e sig0).id = sig0.id ∧
    (migrateSignal now e sig0).status = SignalStatus.migrated ∧
    (migrateSignal now e sig0).outcome.migrated = true ∧
    (migrateSignal now e sig0).outcome.migration_time = some e.timestamp := by
  unfold migrateSignal
  by_cases hc : decTruthy sig0.entry_price_sol = true
  · rw [if_pos hc]
    cases hm : estimate_migration_price e with
    | none => exact ⟨rfl, rfl, rfl, rfl⟩
    | some ep =>
      have h := calculate_pnl_preserves
        ({ sig0 with
          status := SignalStatus.migrated
          outcome := { sig0.outcome with
            migrated := true
            migration_time := some e.timestamp
            price_at_migration := some e.final_liquidity_sol }
          updated_at := now } : Signal) ep now
      have ho := calculate_pnl_outcome_preserves
        ({ sig0 with
          status := SignalStatus.migrated
          outcome := { sig0.outcome with
            migrated := true
            migration_time := some e.timestamp
            price_at_migration := some e.final_liquidity_sol }
          updated_at := now } : Signal) ep now
      exact ⟨h.1, h.2.1, ho.1, ho.2⟩
  · rw [if_neg hc]
    exact ⟨rfl, rfl, rfl, rfl⟩

theorem claim_c3_terminal_is_final_aux {storage : List Signal} {x : Signal}
    (hnd : idsNodup storage) (hx : x ∈ storage)
    (hxp : x.status ≠ SignalStatus.pending) :
    ∀ s0 ∈ storage, s0.status = SignalStatus.pending → s0.id ≠ x.id := by
  intro s0 h0 hp heq
  have h := eq_of_mem_of_id_eq hnd h0 hx heq
  rw [← h] at hxp
  exact hxp hp

/-- Claim C3: once a signal is in a terminal state (Migrated, Failed or
Expired), no outcome-tracker operation (`handle_migration`,
`handle_curve_update`, `expire_old_signals`, `mark_failed`) changes it: the
signal record survives each operation unchanged.  Moreover a migration event
for a token none of whose signals are pending (in particular a second
migration for a token whose only signal is already migrated) is a no-op that
returns nothing. -/
theorem claim_c3_terminal_states_final :
    (∀ (storage : List Signal) (now : Int) (e1 : MigrationEvent) (e2 : CurveProgressEvent)
       (hours : Int) (tok : String) (x : Signal),
      idsNodup storage → x ∈ storage → x.status.isTerminal →
      x ∈ (handle_migration storage now e1).1 ∧
      x ∈ (handle_curve_update storage now e2).1 ∧
      x ∈ (expire_old_signals storage hours now).1 ∧
      x ∈ (mark_failed storage now tok).1) ∧
    (∀ (storage : List Signal) (now : Int) (e1 : MigrationEvent),
      (∀ s ∈ storage, s.token_address = e1.token_address →
        s.status ≠ SignalStatus.pending) →
      handle_migration storage now e1 = (storage, none)) := by
  constructor
  · intro storage now e1 e2 hours tok x hnd hx hterm
    have hxp : x.status ≠ SignalStatus.pending := by
      rcases hterm with h | h | h <;> rw [h] <;> intro hq <;> cases hq
    have hid := claim_c3_terminal_is_final_aux hnd hx hxp
    refine ⟨?_, ?_, ?_, ?_⟩
    · unfold handle_migration
      split
      · exact hx
      · next sig0 rest heq =>
        have h0 := mem_pending_of_token (heq ▸ List.mem_cons_self sig0 rest)
        refine mem_saveSignal_of_ne hx ?_
        rw [(migrateSignal_basic now e1 sig0).1]
        exact fun hcontra => hid sig0 h0.1 h0.2.2 hcontra.symm
    · show x ∈ (((get_by_token storage e2.token_address).filter
        (fun s => s.status.isPending)).foldl
          (curveUpdateStep now (estimate_price_from_curve e2)) (storage, [])).1
      refine mem_foldl_curveUpdate _ _ x hx ?_
      intro s hs
      have h0 := mem_pending_of_token hs
      exact hid s h0.1 h0.2.2
    · show x ∈ ((get_pending storage 1000).foldl
        (expireStep (now - hours * 3600) now) (storage, 0)).1
      refine mem_foldl_expire _ _ x hx ?_
      intro s hs
      have h0 := mem_get_pending hs
      exact hid s h0.1 h0.2
    · show x ∈ ((get_by_token storage tok).filter (fun s => s.status.isPending)).foldl
        (fun acc s => saveSignal acc (failSignal now s)) storage
      refine mem_foldl_markFailed _ _ x hx ?_
      intro s hs
      have h0 := mem_pending_of_token hs
      exact hid s h0.1 h0.2.2
  · intro storage now e1 hnp
    have hfil : (get_by_token storage e1.token_address).filter
        (fun s => s.status.isPending) = [] := by
      refine List.filter_eq_nil_iff.mpr ?_
      intro s hs
      have h2 := mem_get_by_token.mp hs
      have h3 := hnp s h2.1 h2.2
      rw [Bool.not_eq_true]
      rcases hstat : s.status with _ | _ | _ | _
      · exact absurd hstat h3
      all_goals rfl
    unfold handle_migration
    rw [hfil]

/-- Witness for C3: a storage whose only signal for the token is already
migrated; every tracker operation leaves it in place and a second migration
event is a no-op. -/
theorem claim_c3_witness :
    idsNodup [migratedSignal] ∧ migratedSignal.status.isTerminal ∧
    migratedSignal ∈ (handle_migration [migratedSignal] 70 c3Migration).1 ∧
    migratedSignal ∈ (handle_curve_update [migratedSignal] 70 c3Curve).1 ∧
    handle_migration [migratedSignal] 70 c3Migration = ([migratedSignal], none) :=
  ⟨by constructor <;> simp [idsNodup],
   Or.inl rfl,
   (claim_c3_terminal_states_final.1 [migratedSignal] 70 c3Migration c3Curve 24
     ("TOKpump") migratedSignal (by constructor <;> simp [idsNodup]) (by simp)
     (Or.inl rfl)).1,
   (claim_c3_terminal_states_final.1 [migratedSignal] 70 c3Migration c3Curve 24
     ("TOKpump") migratedSignal (by constructor <;> simp [idsNodup]) (by simp)
     (Or.inl rfl)).2.1,
   claim_c3_terminal_states_final.2 [migratedSignal] 70 c3Migration
     (by
       intro s hs htok
       rw [List.mem_singleton.mp hs]
       intro hq
       cases hq)⟩

/-! ### Claim C4: migration picks the newest pending signal -/

theorem migrateSignal_pnl (now : Int) (e : MigrationEvent) (sig0 : Signal) (entry : ℚ)
    (hp : sig0.entry_price_sol = some entry) (hz : entry ≠ 0)
    (hfl : 0 < e.final_liquidity_sol) :
    (migrateSignal now e sig0).outcome.simulated_exit_sol =
      some (sig0.simulated_buy_sol / entry * (e.final_liquidity_sol / 1000000000)) ∧
    (migrateSignal now e sig0).outcome.simulated_pnl_sol =
      some (sig0.simulated_buy_sol / entry * (e.final_liquidity_sol / 1000000000) -
        sig0.simulated_buy_sol) := by
  unfold migrateSignal
  have hc : decTruthy sig0.entry_price_sol = true := by
    rw [hp]
    simp [decTruthy, hz]
  rw [if_pos hc]
  have hm : estimate_migration_price e = some (e.final_liquidity_sol / 1000000000) := by
    unfold estimate_migration_price
    rw [if_pos hfl]
  rw [hm]
  have hf := calculate_pnl_fields
    ({ sig0 with
      status := SignalStatus.migrated
      outcome := { sig0.outcome with
        migrated := true
        migration_time := some e.timestamp
        price_at_migration := some e.final_liquidity_sol }
      updated_at := now } : Signal)
    entry (e.final_liquidity_sol / 1000000000) now hp hz
  exact ⟨hf.2.1, hf.2.2.1⟩

theorem migrateSignal_no_pnl (now : Int) (e : MigrationEvent) (sig0 : Signal)
    (hm : estimate_migration_price e = none) :
    (migrateSignal now e sig0).outcome.simulated_exit_sol =
      sig0.outcome.simulated_exit_sol ∧
    (migrateSignal now e sig0).outcome.simulated_pnl_sol =
      sig0.outcome.simulated_pnl_sol ∧
    (migrateSignal now e sig0).outcome.simulated_pnl_pct =
      sig0.outcome.simulated_pnl_pct := by
  unfold migrateSignal
  by_cases hc : decTruthy sig0.entry_price_sol = true
  · rw [if_pos hc, hm]
    exact ⟨rfl, rfl, rfl⟩
  · rw [if_neg hc]
    exact ⟨rfl, rfl, rfl⟩

/-- Claim C4, amended: when a migration event finds pending signals for its
token, exactly one signal is updated, namely a pending one with the greatest
`signal_time`; it becomes Migrated with the migration outcome fields set, all
other stored signals survive unchanged, and the PnL is computed with exit
price `final_liquidity / 1e9` when an entry price exists, the entry price is
nonzero and the final liquidity is positive (with zero or negative final
liquidity the source skips the PnL computation). -/
theorem claim_c4_migration_updates_newest_pending :
    ∀ (storage : List Signal) (now : Int) (e : MigrationEvent) (res : List Signal)
      (sig : Signal),
      handle_migration storage now e = (res, some sig) →
      ∃ s0, s0 ∈ storage ∧ s0.status = SignalStatus.pending ∧
        s0.token_address = e.token_address ∧
        (∀ s2 ∈ storage, s2.status = SignalStatus.pending →
          s2.token_address = e.token_address → s2.signal_time ≤ s0.signal_time) ∧
        sig = migrateSignal now e s0 ∧
        sig.id = s0.id ∧ sig.status = SignalStatus.migrated ∧
        sig.outcome.migrated = true ∧ sig.outcome.migration_time = some e.timestamp ∧
        res = saveSignal storage sig ∧
        (∀ s2 ∈ storage, s2.id ≠ s0.id → s2 ∈ res) ∧
        (∀ entry, s0.entry_price_sol = some entry → entry ≠ 0 →
          0 < e.final_liquidity_sol →
          sig.outcome.simulated_exit_sol =
            some (s0.simulated_buy_sol / entry * (e.final_liquidity_sol / 1000000000)) ∧
          sig.outcome.simulated_pnl_sol =
            some (s0.simulated_buy_sol / entry * (e.final_liquidity_sol / 1000000000) -
              s0.simulated_buy_sol)) := by
  intro storage now e res sig h
  unfold handle_migration at h
  revert h
  split
  · intro h
    injection h with h1 h2
    cases h2
  · next sig0 rest heq =>
    intro h
    injection h with h1 h2
    injection h2 with h2
    refine ⟨sig0, ?_, ?_, ?_, ?_, h2.symm, ?_, ?_, ?_, ?_, ?_, ?_, ?_⟩
    · exact (mem_pending_of_token (heq ▸ List.mem_cons_self sig0 rest)).1
    · exact (mem_pending_of_token (heq ▸ List.mem_cons_self sig0 rest)).2.2
    · exact (mem_pending_of_token (heq ▸ List.mem_cons_self sig0 rest)).2.1
    · intro s2 hs2 hp2 ht2
      have hmem : s2 ∈ (get_by_token storage e.token_address).filter
          (fun s => s.status.isPending) := by
        refine List.mem_filter.mpr ⟨mem_get_by_token.mpr ⟨hs2, ht2⟩, ?_⟩
        rw [isPending_iff]
        exact hp2
      rw [heq] at hmem
      rcases List.mem_cons.mp hmem with rfl | hrest
      · exact le_refl _
      · have hpair : ((get_by_token storage e.token_address).filter
            (fun s => s.status.isPending)).Pairwise
            (fun a b => b.signal_time ≤ a.signal_time) :=
          (pairwise_sortByTimeDesc (storage.filter
            (fun s => s.token_address == e.token_address))).sublist
            (List.filter_sublist _)
        rw [heq, List.pairwise_cons] at hpair
        exact hpair.1 s2 hrest
    · rw [← h2, (migrateSignal_basic now e sig0).1]
    · rw [← h2, (migrateSignal_basic now e sig0).2.1]
    · rw [← h2, (migrateSignal_basic now e sig0).2.2.1]
    · rw [← h2, (migrateSignal_basic now e sig0).2.2.2]
    · rw [← h1, ← h2]
    · intro s2 hs2 hid
      rw [← h1]
      refine mem_saveSignal_of_ne hs2 ?_
      rw [(migrateSignal_basic now e sig0).1]
      exact hid
    · intro entry hp hz hfl
      rw [← h2]
      exact migrateSignal_pnl now e sig0 entry hp hz hfl

/-- Counterexample for C4 as stated: the signal has an entry price, the
migration event is processed (status and `migrated` flag set), yet because
`final_liquidity = 0` no PnL is computed — the exit value stays unset instead
of being the claimed `buy / entry * (0 / 1e9) = 0`. -/
theorem claim_c4_counterexample :
    c4Sig.entry_price_sol = some 1 ∧
    (handle_migration [c4Sig] 50 c4MigrationZero).2 =
      some (migrateSignal 50 c4MigrationZero c4Sig) ∧
    (migrateSignal 50 c4MigrationZero c4Sig).outcome.migrated = true ∧
    (migrateSignal 50 c4MigrationZero c4Sig).outcome.simulated_exit_sol = none ∧
    (none : Option ℚ) ≠ some (c4Sig.simulated_buy_sol / 1 * (0 / 1000000000)) := by
  have hm : estimate_migration_price c4MigrationZero = none := by
    unfold estimate_migration_price
    rw [if_neg]
    norm_num [c4MigrationZero]
  refine ⟨rfl, rfl, (migrateSignal_basic 50 c4MigrationZero c4Sig).2.2.1, ?_, by simp⟩
  rw [(migrateSignal_no_pnl 50 c4MigrationZero c4Sig hm).1]
  rfl

/-- Witness for C4: a migration with positive final liquidity over a single
pending signal; the theorem is applied at this concrete instance. -/
theorem claim_c4_witness :
    ∃ s0, s0 ∈ [c4Sig] ∧ s0.status = SignalStatus.pending ∧
      s0.token_address = c3Migration.token_address ∧
      (∀ s2 ∈ [c4Sig], s2.status = SignalStatus.pending →
        s2.token_address = c3Migration.token_address →
        s2.signal_time ≤ s0.signal_time) ∧
      migrateSignal 50 c3Migration c4Sig = migrateSignal 50 c3Migration s0 ∧
      (migrateSignal 50 c3Migration c4Sig).id = s0.id ∧
      (migrateSignal 50 c3Migration c4Sig).status = SignalStatus.migrated ∧
      (migrateSignal 50 c3Migration c4Sig).outcome.migrated = true ∧
      (migrateSignal 50 c3Migration c4Sig).outcome.migration_time =
        some c3Migration.timestamp ∧
      saveSignal [c4Sig] (migrateSignal 50 c3Migration c4Sig) =
        saveSignal [c4Sig] (migrateSignal 50 c3Migration c4Sig) ∧
      (∀ s2 ∈ [c4Sig], s2.id ≠ s0.id →
        s2 ∈ saveSignal [c4Sig] (migrateSignal 50 c3Migration c4Sig)) ∧
      (∀ entry, s0.entry_price_sol = some entry → entry ≠ 0 →
        0 < c3Migration.final_liquidity_sol →
        (migrateSignal 50 c3Migration c4Sig).outcome.simulated_exit_sol =
          some (s0.simulated_buy_sol / entry *
            (c3Migration.final_liquidity_sol / 1000000000)) ∧
        (migrateSignal 50 c3Migration c4Sig).outcome.simulated_pnl_sol =
          some (s0.simulated_buy_sol / entry *
            (c3Migration.final_liquidity_sol / 1000000000) - s0.simulated_buy_sol)) :=
  claim_c4_migration_updates_newest_pending [c4Sig] 50 c3Migration
    (saveSignal [c4Sig] (migrateSignal 50 c3Migration c4Sig))
    (migrateSignal 50 c3Migration c4Sig) rfl

/-! ### Claim C8: curve updates on pending signals -/

theorem mem_snd_foldl_curveUpdate {now : Int} {cp? : Option ℚ} :
    ∀ (l : List Signal) (acc : List Signal × List Signal) (s' : Signal),
      s' ∈ (l.foldl (curveUpdateStep now cp?) acc).2 →
      s' ∈ acc.2 ∨ ∃ cp s0, cp? = some cp ∧ s0 ∈ l ∧
        ((cp != 0) && decTruthy s0.entry_price_sol) = true ∧
        s' = { s0.calculate_simulated_pnl cp now with updated_at := now } := by
  intro l
  induction l with
  | nil => intro acc s' h; exact Or.inl h
  | cons s t ih =>
    intro acc s' h
    rw [List.foldl_cons] at h
    rcases ih _ s' h with hacc | ⟨cp, s0, hcp, hs0, hcond, hs'⟩
    · cases hcpq : cp? with
      | none =>
        rw [hcpq] at hacc
        exact Or.inl hacc
      | some cp =>
        rw [hcpq] at hacc
        by_cases hc : ((cp != 0) && decTruthy s.entry_price_sol) = true
        · rw [curveUpdateStep, if_pos hc] at hacc
          rcases List.mem_append.mp hacc with h1 | h2
          · exact Or.inl h1
          · exact Or.inr ⟨cp, s, rfl, by simp, hc, List.mem_singleton.mp h2⟩
        · rw [curveUpdateStep, if_neg hc] at hacc
          exact Or.inl hacc
    · exact Or.inr ⟨cp, s0, hcp, List.mem_cons_of_mem s hs0, hcond, hs'⟩

/-- Claim C8, amended: for every signal updated by `handle_curve_update`
there is a pending stored signal of the event token with a truthy entry
price, and the update recomputes the PnL from the price estimated as the
event market cap over the fixed 1e9 supply (`_estimate_price_from_curve`) —
not from the directly observed unit price — leaving the status Pending and
setting `updated_at`. -/
theorem claim_c8_curve_update_uses_estimate :
    ∀ (storage : List Signal) (now : Int) (e : CurveProgressEvent) (s' : Signal),
      s' ∈ (handle_curve_update storage now e).2 →
      ∃ cp s0, estimate_price_from_curve e = some cp ∧ cp ≠ 0 ∧
        s0 ∈ storage ∧ s0.status = SignalStatus.pending ∧
        s0.token_address = e.token_address ∧
        decTruthy s0.entry_price_sol = true ∧
        s' = { s0.calculate_simulated_pnl cp now with updated_at := now } ∧
        s'.status = SignalStatus.pending ∧
        s'.updated_at = now ∧
        (∀ entry, s0.entry_price_sol = some entry → entry ≠ 0 →
          s'.outcome.simulated_exit_sol =
            some (s0.simulated_buy_sol / entry * cp)) := by
  intro storage now e s' h
  have h2 : s' ∈ (((get_by_token storage e.token_address).filter
      (fun s => s.status.isPending)).foldl
        (curveUpdateStep now (estimate_price_from_curve e)) (storage, [])).2 := h
  rcases mem_snd_foldl_curveUpdate _ _ s' h2 with habs | ⟨cp, s0, hcp, hs0, hcond, hs'⟩
  · cases habs
  · have hmem := mem_pending_of_token hs0
    have hc := (Bool.and_eq_true _ _).mp hcond
    refine ⟨cp, s0, hcp, by simpa using hc.1, hmem.1, hmem.2.2, hmem.2.1, hc.2, hs', ?_, ?_, ?_⟩
    · rw [hs']
      show (s0.calculate_simulated_pnl cp now).status = SignalStatus.pending
      rw [(calculate_pnl_preserves s0 cp now).2.1]
      exact hmem.2.2
    · rw [hs']
    · intro entry hp hz
      rw [hs']
      show (s0.calculate_simulated_pnl cp now).outcome.simulated_exit_sol =
        some (s0.simulated_buy_sol / entry * cp)
      exact (calculate_pnl_fields s0 entry cp now hp hz).2.1

theorem c8_estimate_eval : estimate_price_from_curve c3Curve = some (1 / 200) := by
  show (if (0 : ℚ) < 5000000 then some ((5000000 : ℚ) / 1000000000) else none) =
    some (1 / 200)
  rw [if_pos (by norm_num)]
  norm_num

theorem c8_eval : (handle_curve_update [sampleSignal] 70 c3Curve).2 =
    [{ sampleSignal.calculate_simulated_pnl (1 / 200) 70 with updated_at := 70 }] := by
  have hpend : (get_by_token [sampleSignal] c3Curve.token_address).filter
      (fun s => s.status.isPending) = [sampleSignal] := rfl
  show (((get_by_token [sampleSignal] c3Curve.token_address).filter
      (fun s => s.status.isPending)).foldl
        (curveUpdateStep 70 (estimate_price_from_curve c3Curve))
        ([sampleSignal], [])).2 = _
  rw [hpend, c8_estimate_eval]
  rw [List.foldl_cons, List.foldl_nil]
  have hcond : (((1 : ℚ) / 200 != 0) && decTruthy sampleSignal.entry_price_sol) = true := by
    rw [Bool.and_eq_true]
    constructor
    · rw [bne_iff_ne]
      norm_num
    · show ((1 : ℚ) / 1000 != 0) = true
      rw [bne_iff_ne]
      norm_num
  rw [curveUpdateStep, if_pos hcond]
  rfl

/-- Counterexample for C8 as stated: the event carries the directly observed
unit price `0.002` (which would give +100 percent against entry `0.001`,
buy `0.5`), but the update computes +400 percent, the figure obtained from
the market-cap estimate `5e6 / 1e9 = 0.005`. -/
theorem claim_c8_counterexample :
    c3Curve.token_price_sol = some (1 / 500) ∧
    ((handle_curve_update [sampleSignal] 70 c3Curve).2.map
      (fun s => s.outcome.simulated_pnl_pct)) = [some 400] ∧
    some (400 : ℚ) ≠ some (100 : ℚ) := by
  refine ⟨rfl, ?_, by norm_num⟩
  rw [c8_eval]
  rw [List.map_cons, List.map_nil]
  have hf := calculate_pnl_fields sampleSignal (1 / 1000) (1 / 200) 70 rfl (by norm_num)
  have hpct := hf.2.2.2.1 (by show (0 : ℚ) < 1 / 2; norm_num)
  have : ({ sampleSignal.calculate_simulated_pnl (1 / 200) 70 with
      updated_at := 70 } : Signal).outcome.simulated_pnl_pct =
      (sampleSignal.calculate_simulated_pnl (1 / 200) 70).outcome.simulated_pnl_pct := rfl
  rw [this, hpct]
  norm_num [sampleSignal]

/-- Witness for C8: the amended theorem applied at the concrete update. -/
theorem claim_c8_witness :
    ({ sampleSignal.calculate_simulated_pnl (1 / 200) 70 with updated_at := 70 } : Signal) ∈
      (handle_curve_update [sampleSignal] 70 c3Curve).2 ∧
    ∃ cp s0, estimate_price_from_curve c3Curve = some cp ∧ cp ≠ 0 ∧
      s0 ∈ [sampleSignal] ∧ s0.status = SignalStatus.pending ∧
      s0.token_address = c3Curve.token_address ∧
      decTruthy s0.entry_price_sol = true ∧
      ({ sampleSignal.calculate_simulated_pnl (1 / 200) 70 with
        updated_at := 70 } : Signal) =
        { s0.calculate_simulated_pnl cp 70 with updated_at := 70 } ∧
      ({ sampleSignal.calculate_simulated_pnl (1 / 200) 70 with
        updated_at := 70 } : Signal).status = SignalStatus.pending ∧
      ({ sampleSignal.calculate_simulated_pnl (1 / 200) 70 with
        updated_at := 70 } : Signal).updated_at = 70 ∧
      (∀ entry, s0.entry_price_sol = some entry → entry ≠ 0 →
        ({ sampleSignal.calculate_simulated_pnl (1 / 200) 70 with
          updated_at := 70 } : Signal).outcome.simulated_exit_sol =
          some (s0.simulated_buy_sol / entry * cp)) :=
  ⟨by rw [c8_eval]; exact List.mem_singleton.mpr rfl,
   claim_c8_curve_update_uses_estimate [sampleSignal] 70 c3Curve _
     (by rw [c8_eval]; exact List.mem_singleton.mpr rfl)⟩

/-! ### Claim C9: expiry sweep -/

theorem perm_insertAscByTime (s : Signal) : ∀ (l : List Signal),
    (insertAscByTime s l).Perm (s :: l) := by
  intro l
  induction l with
  | nil => exact List.Perm.refl _
  | cons x xs ih =>
    rw [insertAscByTime]
    split
    · exact List.Perm.refl _
    · exact (ih.cons x).trans (List.Perm.swap s x xs)

theorem perm_foldl_insertAsc : ∀ (l acc : List Signal),
    (l.foldl (fun acc s => insertAscByTime s acc) acc).Perm (acc ++ l) := by
  intro l
  induction l with
  | nil => intro acc; simp
  | cons x xs ih =>
    intro acc
    rw [List.foldl_cons]
    refine (ih (insertAscByTime x acc)).trans ?_
    refine (List.Perm.append_right xs (perm_insertAscByTime x acc)).trans ?_
    show ((x :: acc) ++ xs).Perm (acc ++ x :: xs)
    rw [List.cons_append]
    exact List.perm_middle.symm

theorem perm_sortByTimeAsc (l : List Signal) : (sortByTimeAsc l).Perm l := by
  unfold sortByTimeAsc
  simpa using perm_foldl_insertAsc l []

theorem get_pending_ids_nodup {storage : List Signal} (hnd : idsNodup storage)
    (lim : Nat) : ((get_pending storage lim).map Signal.id).Nodup := by
  unfold get_pending
  have h1 : ((storage.filter (fun s => s.status.isPending)).map Signal.id).Nodup :=
    hnd.sublist ((List.filter_sublist storage).map Signal.id)
  have h2 : ((sortByTimeAsc (storage.filter (fun s => s.status.isPending))).map
      Signal.id).Nodup :=
    (((perm_sortByTimeAsc _).map Signal.id).nodup_iff).mpr h1
  exact h2.sublist ((List.take_sublist lim _).map Signal.id)

theorem expire_fold_mem {cutoff now : Int} : ∀ (l : List Signal) (acc : List Signal × Nat)
    (s : Signal), (l.map Signal.id).Nodup → s ∈ l → s.signal_time < cutoff →
    ({ s with status := SignalStatus.expired, updated_at := now } : Signal) ∈
      (l.foldl (expireStep cutoff now) acc).1 := by
  intro l
  induction l with
  | nil => intro acc s _ hs; cases hs
  | cons x t ih =>
    intro acc s hnd hs hold
    rw [List.map_cons, List.nodup_cons] at hnd
    rw [List.foldl_cons]
    rcases List.mem_cons.mp hs with rfl | hmem
    · refine mem_foldl_expire t _ _ ?_ ?_
      · show ({ s with status := SignalStatus.expired, updated_at := now } : Signal) ∈
          (expireStep cutoff now acc s).1
        unfold expireStep
        rw [if_pos hold]
        exact sig_mem_saveSignal _ _
      · intro u hu
        show u.id ≠ ({ s with status := SignalStatus.expired, updated_at := now } : Signal).id
        exact fun hcontra => hnd.1 (hcontra ▸ List.mem_map_of_mem Signal.id hu)
    · exact ih _ s hnd.2 hmem hold

theorem expire_fold_preserves_young {cutoff now : Int} : ∀ (l : List Signal)
    (acc : List Signal × Nat) (x : Signal),
    x ∈ acc.1 → (∀ u ∈ l, u.id = x.id → ¬ u.signal_time < cutoff) →
    x ∈ (l.foldl (expireStep cutoff now) acc).1 := by
  intro l
  induction l with
  | nil => intro acc x hx _; exact hx
  | cons u t ih =>
    intro acc x hx hids
    rw [List.foldl_cons]
    refine ih _ x ?_ (fun v hv => hids v (List.mem_cons_of_mem u hv))
    unfold expireStep
    by_cases hc : u.signal_time < cutoff
    · rw [if_pos hc]
      show x ∈ saveSignal acc.1 { u with status := SignalStatus.expired, updated_at := now }
      refine mem_saveSignal_of_ne hx ?_
      show x.id ≠ u.id
      intro hcontra
      exact hids u (by simp) hcontra.symm hc
    · rw [if_neg hc]
      exact hx

theorem expire_fold_count {cutoff now : Int} : ∀ (l : List Signal) (acc : List Signal × Nat),
    (l.foldl (expireStep cutoff now) acc).2 =
      acc.2 + (l.filter (fun s => decide (s.signal_time < cutoff))).length := by
  intro l
  induction l with
  | nil => intro acc; simp
  | cons x t ih =>
    intro acc
    rw [List.foldl_cons, List.filter_cons]
    by_cases hc : x.signal_time < cutoff
    · have hstep : expireStep cutoff now acc x =
          (saveSignal acc.1 { x with status := SignalStatus.expired, updated_at := now },
           acc.2 + 1) := by
        unfold expireStep
        rw [if_pos hc]
      rw [hstep, ih]
      simp [hc]
      omega
    · have hstep : expireStep cutoff now acc x = acc := by
        unfold expireStep
        rw [if_neg hc]
      rw [hstep, ih]
      simp [hc]

/-- Claim C9, amended: an expiry sweep works on the up-to-1000 oldest pending
signals fetched by `get_pending`: among those, every signal older than
`now - hours` becomes Expired; every pending signal still within the window
survives unchanged; the returned count is the number of fetched signals that
were expired.  When at most 1000 signals are pending the fetched list covers
them all, so every too-old pending signal is expired, which is the claim as
stated; with more than 1000 pending signals the excess is not touched (see the
counterexample). -/
theorem claim_c9_expiry_sweep :
    ∀ (storage : List Signal) (hours now : Int),
      idsNodup storage →
      (∀ s ∈ get_pending storage 1000, s.signal_time < now - hours * 3600 →
        ({ s with status := SignalStatus.expired, updated_at := now } : Signal) ∈
          (expire_old_signals storage hours now).1) ∧
      (∀ s ∈ storage, s.status = SignalStatus.pending →
        ¬ s.signal_time < now - hours * 3600 →
        s ∈ (expire_old_signals storage hours now).1) ∧
      (expire_old_signals storage hours now).2 =
        ((get_pending storage 1000).filter
          (fun s => decide (s.signal_time < now - hours * 3600))).length ∧
      ((storage.filter (fun s => s.status.isPending)).length ≤ 1000 →
        ∀ s ∈ storage, s.status = SignalStatus.pending →
          s.signal_time < now - hours * 3600 →
          ({ s with status := SignalStatus.expired, updated_at := now } : Signal) ∈
            (expire_old_signals storage hours now).1) := by
  intro storage hours now hnd
  have ha : ∀ s ∈ get_pending storage 1000, s.signal_time < now - hours * 3600 →
      ({ s with status := SignalStatus.expired, updated_at := now } : Signal) ∈
        (expire_old_signals storage hours now).1 := by
    intro s hs hold
    show ({ s with status := SignalStatus.expired, updated_at := now } : Signal) ∈
      ((get_pending storage 1000).foldl
        (expireStep (now - hours * 3600) now) (storage, 0)).1
    exact expire_fold_mem _ _ s (get_pending_ids_nodup hnd 1000) hs hold
  refine ⟨ha, ?_, ?_, ?_⟩
  · intro s hs hp hyoung
    show s ∈ ((get_pending storage 1000).foldl
      (expireStep (now - hours * 3600) now) (storage, 0)).1
    refine expire_fold_preserves_young _ _ s hs ?_
    intro u hu hid
    have hu2 := mem_get_pending hu
    rw [eq_of_mem_of_id_eq hnd hu2.1 hs hid]
    exact hyoung
  · show ((get_pending storage 1000).foldl
      (expireStep (now - hours * 3600) now) (storage, 0)).2 = _
    rw [expire_fold_count]
    simp
  · intro hlim s hs hp hold
    refine ha s ?_ hold
    unfold get_pending
    have hlen : (sortByTimeAsc (storage.filter (fun s => s.status.isPending))).length ≤
        1000 := by
      rw [length_sortByTimeAsc]
      exact hlim
    rw [List.take_of_length_le hlen, mem_sortByTimeAsc, List.mem_filter]
    exact ⟨hs, isPending_iff.mpr hp⟩

set_option maxRecDepth 4000 in
/-- Counterexample for C9 as stated: with 1001 old pending signals the sweep
only fetches 1000 of them, and the remaining signal — pending and older than
the window — is still pending (present unchanged) after the sweep. -/
theorem claim_c9_counterexample :
    (c9Sig 1000).status = SignalStatus.pending ∧
    (c9Sig 1000).signal_time < 90000 - 24 * 3600 ∧
    c9Sig 1000 ∈ (expire_old_signals c9Storage 24 90000).1 := by
  have hfil : c9Storage.filter (fun s => s.status.isPending) = c9Storage := by
    refine List.filter_eq_self.mpr ?_
    intro a ha
    rcases List.mem_map.mp ha with ⟨i, _, rfl⟩
    rfl
  have htime : ∀ x ∈ c9Storage, x.signal_time = 0 := by
    intro x hx
    rcases List.mem_map.mp hx with ⟨i, _, rfl⟩
    rfl
  have hsort : sortByTimeAsc c9Storage = c9Storage := sortByTimeAsc_all_eq htime
  have hgp : get_pending c9Storage 1000 = (List.range 1000).map c9Sig := by
    unfold get_pending
    rw [hfil, hsort]
    show (((List.range 1001).map c9Sig).take 1000) = _
    rw [← List.map_take, List.take_range]
    rfl
  refine ⟨rfl, by norm_num [c9Sig, sampleSignal], ?_⟩
  simp only [expire_old_signals]
  rw [hgp]
  refine mem_foldl_expire _ _ _ ?_ ?_
  · exact List.mem_map_of_mem c9Sig (List.mem_range.mpr (by norm_num))
  · intro s hs
    rcases List.mem_map.mp hs with ⟨i, hi, rfl⟩
    show i ≠ 1000
    have := List.mem_range.mp hi
    omega

/-- Witness for C9: a single old pending signal is expired by the sweep. -/
theorem claim_c9_witness :
    idsNodup [sampleSignal] ∧
    sampleSignal ∈ get_pending [sampleSignal] 1000 ∧
    sampleSignal.signal_time < 100000 - 24 * 3600 ∧
    ({ sampleSignal with status := SignalStatus.expired, updated_at := 100000 } : Signal) ∈
      (expire_old_signals [sampleSignal] 24 100000).1 :=
  ⟨by constructor <;> simp [idsNodup],
   by rw [show get_pending [sampleSignal] 1000 = [sampleSignal] from rfl]; simp,
   by norm_num [sampleSignal],
   (claim_c9_expiry_sweep [sampleSignal] 24 100000
     (by constructor <;> simp [idsNodup])).1 sampleSignal
     (by rw [show get_pending [sampleSignal] 1000 = [sampleSignal] from rfl]; simp)
     (by norm_num [sampleSignal])⟩

/-! ### Claim C7: native amount derivation for swap classification -/

theorem solAmounts_spec (tx : RawTx) :
    (tx.nativeTransfers ≠ [] →
      solAmounts tx = tx.nativeTransfers.map (fun t => |t.amount|)) ∧
    (tx.nativeTransfers = [] →
      solAmounts tx = (tx.accountData.filter
        (fun a => a.nativeBalanceChange != 0)).map (fun a => |a.nativeBalanceChange|)) := by
  unfold solAmounts
  rcases hnt : tx.nativeTransfers with _ | ⟨t, ts⟩
  · exact ⟨fun hcontra => absurd rfl hcontra, fun _ => rfl⟩
  · exact ⟨fun _ => rfl, fun hcontra => by cases hcontra⟩

/-- Claim C7, amended: for a SWAP transaction classified as CurveProgress,
the list of native amounts comes from the explicit transfer list, with the
absolute nonzero native balance changes used only when that list is empty;
the amount entering the unit price is the LARGEST of those absolute amounts
over 1e9 (`mainSolAmount`), while the halved sum over 1e9 (`totalSolAmount`)
becomes the liquidity figure; when both the main native amount and the traded
token amount are positive, `unit_price = mainSolAmount / traded_amount` and
`market_cap = unit_price * 1e9`, otherwise both stay unset. -/
theorem claim_c7_swap_price_derivation :
    ∀ (tx : RawTx) (now : Int) (ev : CurveProgressEvent),
      parse_transaction tx now = some (ParsedEvent.curveProgress ev) →
      (tx.nativeTransfers ≠ [] →
        solAmounts tx = tx.nativeTransfers.map (fun t => |t.amount|)) ∧
      (tx.nativeTransfers = [] →
        solAmounts tx = (tx.accountData.filter
          (fun a => a.nativeBalanceChange != 0)).map (fun a => |a.nativeBalanceChange|)) ∧
      ev.liquidity_sol = totalSolAmount tx ∧
      (∀ ta, ev.token_amount = some ta →
        (0 < ta ∧ 0 < mainSolAmount tx →
          ev.token_price_sol = some (mainSolAmount tx / ta) ∧
          ev.market_cap_sol = some (mainSolAmount tx / ta * 1000000000)) ∧
        (¬ (0 < ta ∧ 0 < mainSolAmount tx) →
          ev.token_price_sol = none ∧ ev.market_cap_sol = none)) := by
  intro tx now ev h
  refine ⟨(solAmounts_spec tx).1, (solAmounts_spec tx).2, ?_⟩
  have hbc : build_curve_progress tx now = some ev := by
    unfold parse_transaction at h
    revert h
    split
    · intro h
      cases h
    · split
      · intro h
        cases h
      · split
        · intro h
          rcases hb : build_token_created tx now with _ | a <;> rw [hb] at h <;> simp at h
        · intro h
          rcases hb : build_curve_progress tx now with _ | a
          · rw [hb] at h
            simp at h
          · rw [hb] at h
            simp at h
            rw [h]
        · intro h
          rcases hb : build_migration tx now with _ | a <;> rw [hb] at h <;> simp at h
        · intro h
          cases h
  rcases hf : findCurveToken tx with _ | ⟨addr, ta0⟩
  · rw [show build_curve_progress tx now =
        (match findCurveToken tx with
          | none => none
          | some (addr, token_amount) =>
            some
              { tx_signature := tx.signature
                timestamp := parsedTimestamp tx now
                slot := tx.slot
                token_address := addr
                curve_progress_pct := 0
                liquidity_sol := totalSolAmount tx
                market_cap_sol :=
                  (if 0 < token_amount ∧ 0 < mainSolAmount tx then
                    some (mainSolAmount tx / token_amount) else none).map
                    (fun p => p * 1000000000)
                token_price_sol :=
                  if 0 < token_amount ∧ 0 < mainSolAmount tx then
                    some (mainSolAmount tx / token_amount) else none
                token_amount := some token_amount }
          : Option CurveProgressEvent) from rfl, hf] at hbc
    cases hbc
  · rw [show build_curve_progress tx now =
        (match findCurveToken tx with
          | none => none
          | some (addr, token_amount) =>
            some
              { tx_signature := tx.signature
                timestamp := parsedTimestamp tx now
                slot := tx.slot
                token_address := addr
                curve_progress_pct := 0
                liquidity_sol := totalSolAmount tx
                market_cap_sol :=
                  (if 0 < token_amount ∧ 0 < mainSolAmount tx then
                    some (mainSolAmount tx / token_amount) else none).map
                    (fun p => p * 1000000000)
                token_price_sol :=
                  if 0 < token_amount ∧ 0 < mainSolAmount tx then
                    some (mainSolAmount tx / token_amount) else none
                token_amount := some token_amount }
          : Option CurveProgressEvent) from rfl, hf] at hbc
    injection hbc with hbc
    subst hbc
    refine ⟨rfl, ?_⟩
    intro ta hta
    have hta0 : ta = ta0 := by
      have h2 : some ta0 = some ta := hta
      injection h2 with h2
      exact h2.symm
    subst hta0
    constructor
    · intro hpos
      rw [if_pos hpos]
      exact ⟨rfl, rfl⟩
    · intro hneg
      rw [if_neg hneg]
      exact ⟨rfl, rfl⟩

theorem c7_sol_eval : solAmounts c7Tx = [2000000000, 4000000000] := by
  show (c7Tx.accountData.filter (fun a => a.nativeBalanceChange != 0)).map
    (fun a => |a.nativeBalanceChange|) = _
  norm_num [c7Tx]

theorem c7_main_eval : mainSolAmount c7Tx = 4 := by
  unfold mainSolAmount
  rw [c7_sol_eval]
  show ((List.foldl max 2000000000 [4000000000] : Int) : ℚ) / 1000000000 = 4
  norm_num [List.foldl]

theorem c7_total_eval : totalSolAmount c7Tx = 3 := by
  unfold totalSolAmount
  rw [c7_sol_eval]
  norm_num [List.map_cons, List.map_nil, List.sum_cons, List.sum_nil]

theorem c7_find_eval : findCurveToken c7Tx = some (("ABCpump" : String), (2 : ℚ)) := by
  unfold findCurveToken
  rw [show findPumpTransfer c7Tx.tokenTransfers =
    some { mint := "ABCpump", tokenAmount := 2 } from rfl]
  norm_num

theorem c7_build_eval : build_curve_progress c7Tx 0 = some c7Ev := by
  unfold build_curve_progress
  rw [c7_find_eval]
  show some
    ({ tx_signature := c7Tx.signature
       timestamp := parsedTimestamp c7Tx 0
       slot := c7Tx.slot
       token_address := ("ABCpump" : String)
       curve_progress_pct := 0
       liquidity_sol := totalSolAmount c7Tx
       market_cap_sol :=
         (if 0 < (2 : ℚ) ∧ 0 < mainSolAmount c7Tx then
           some (mainSolAmount c7Tx / 2) else none).map (fun p => p * 1000000000)
       token_price_sol :=
         if 0 < (2 : ℚ) ∧ 0 < mainSolAmount c7Tx then
           some (mainSolAmount c7Tx / 2) else none
       token_amount := some 2 } : CurveProgressEvent) = some c7Ev
  rw [if_pos ⟨by norm_num, by rw [c7_main_eval]; norm_num⟩]
  rw [c7_main_eval, c7_total_eval]
  simp only [c7Ev, Option.some.injEq, CurveProgressEvent.mk.injEq, Option.map_some]
  norm_num
  exact ⟨rfl, rfl, rfl⟩

theorem c7_parse_eval : parse_transaction c7Tx 0 = some (ParsedEvent.curveProgress c7Ev) := by
  unfold parse_transaction
  rw [if_neg (by decide), if_neg (by decide)]
  rw [show detect_event_type c7Tx = EventType.curve_progress from rfl]
  rw [c7_build_eval]
  rfl

/-- Counterexample for C7 as stated: the native-transfer list is empty, so by
the claim the unit price would come from the halved sum of absolute balance
deltas, `(2e9 + 4e9) / 1e9 / 2 = 3` native units, giving `3 / 2` per token;
the classifier actually uses the largest absolute delta, `4e9 / 1e9 = 4`
native units, and emits unit price `4 / 2 = 2`. -/
theorem claim_c7_counterexample :
    c7Tx.nativeTransfers = [] ∧
    (parse_transaction c7Tx 0).map c7Price = some (some 2) ∧
    totalSolAmount c7Tx = 3 ∧
    (some (2 : ℚ) : Option ℚ) ≠ some (3 / 2) := by
  refine ⟨rfl, ?_, c7_total_eval, by norm_num⟩
  rw [c7_parse_eval]
  rfl

/-- Witness for C7: the amended theorem applied at the concrete swap. -/
theorem claim_c7_witness :
    parse_transaction c7Tx 0 = some (ParsedEvent.curveProgress c7Ev) ∧
    c7Ev.liquidity_sol = totalSolAmount c7Tx ∧
    (∀ ta, c7Ev.token_amount = some ta →
      (0 < ta ∧ 0 < mainSolAmount c7Tx →
        c7Ev.token_price_sol = some (mainSolAmount c7Tx / ta) ∧
        c7Ev.market_cap_sol = some (mainSolAmount c7Tx / ta * 1000000000)) ∧
      (¬ (0 < ta ∧ 0 < mainSolAmount c7Tx) →
        c7Ev.token_price_sol = none ∧ c7Ev.market_cap_sol = none)) :=
  ⟨c7_parse_eval,
   (claim_c7_swap_price_derivation c7Tx 0 c7Ev c7_parse_eval).2.2.1,
   (claim_c7_swap_price_derivation c7Tx 0 c7Ev c7_parse_eval).2.2.2⟩
